import Mathlib

/-!
# Verification of the store-and-forward messaging relay (src/api.py)

This file gives a shallow embedding of the message delivery and retention
engine of the repository's Flask service (`src/api.py`): the account ledger,
the message store, the cursor-based update protocol (`get_updates`), quota
checks on `send_file`, the retention sweep (`cleanup_old_messages`), the
storage-cap enforcement (`enforce_storage_limits`), file download
(`download_file`) and the webhook notifier (`send_webhook_notification`).

Python integers are modelled as `Int` (ledger counters, timestamps, offsets)
or `Nat` (sizes, sequence ids, read counters); SQLAlchemy rows are Lean
structures; the database session is an explicit `ServerState` record; the
filesystem is the `disk` field (set of stored file ids); the single outbound
HTTP call of the webhook notifier is a parameter (`none` = transport
exception, `some code` = an HTTP response with that status code).
-/

set_option maxHeartbeats 1000000

/-! ## Configuration constants (src/api.py lines 26-30) -/

def MAX_USER_STORAGE : Int := 100 * 1024 * 1024

def MAX_TOTAL_STORAGE : Int := 700 * 1024 * 1024

def MESSAGE_AUTO_DELETE_HOURS : Int := 24

def POLLING_LIMIT : Nat := 50

/-! ## Data model (SQLAlchemy models, src/api.py lines 37-139) -/

/-- Row of the `User` model: ledger counters are Python ints (`Int` here,
they can in principle go negative, which is part of what we verify). -/
structure User where
  user_id : String
  username : String
  storage_used : Int
  message_count : Int
  is_active : Bool
deriving DecidableEq

/-- Row of the `Message` model.  `id` is the autoincrement primary key used
as the update sequence number; `message_id` and `file_id` model the opaque
random tokens; `file_path` holds the stored file's disk name (modelled by
the file id used to build `unique_filename`). -/
structure Message where
  id : Nat
  message_id : Nat
  message_type : String
  text_content : Option String
  file_id : Option Nat
  original_name : Option String
  file_name : Option String
  file_path : Option Nat
  file_size : Option Nat
  mime_type : Option String
  reply_to_message_id : Option Nat
  reply_to_sender_id : Option String
  reply_to_text : Option String
  sender_id : String
  sender_username : String
  receiver_id : String
  sent_at : Int
  expires_at : Int
  is_delivered : Bool
  read_count : Nat
  webhook_sent : Bool
deriving DecidableEq

/-- Row of the `UserWebhook` model. -/
structure UserWebhook where
  user_id : String
  webhook_url : String
  secret_token : Option String
  is_active : Bool
  last_triggered : Option Int
deriving DecidableEq

/-- The whole mutable state of the service: database tables, the upload
folder (`disk`, holding the file ids whose backing file exists), and the
autoincrement counter for `Message.id`. -/
structure ServerState where
  users : List User
  messages : List Message
  webhooks : List UserWebhook
  disk : List Nat
  next_id : Nat
deriving DecidableEq

/-! ## Generic helpers for the embedding -/

/-- Mutating the first row matched by a SQLAlchemy `filter_by(...).first()`
query: update the first element satisfying `p`, keep everything else. -/
def updateFirst {α : Type} (p : α → Bool) (f : α → α) : List α → List α
  | [] => []
  | a :: t => if p a then f a :: t else a :: updateFirst p f t

/-- Python truthiness of an optional integer column (`if message.file_size:`):
`None` and `0` are falsy. -/
def pyTruthyNat : Option Nat → Bool
  | none => false
  | some n => n != 0

/-- Python truthiness of an optional string column. -/
def pyTruthyStr : Option String → Bool
  | none => false
  | some t => t != ""

/-- Python `offset or 0` for an optional int (`0` maps to `0`, so this is
exactly `Option.getD · 0`). -/
def pyOrZero (o : Option Int) : Int := o.getD 0

/-! ## File-type allow-list (src/api.py lines 168-175) -/

def ALLOWED_EXTENSIONS : List String :=
  ["txt", "pdf", "png", "jpg", "jpeg", "gif", "doc", "docx",
   "zip", "mp3", "mp4", "tgs", "webp", "json", "svg", "avi",
   "mov", "wav", "ogg", "rar", "7z", "ppt", "pptx", "xls", "xlsx"]

/-- `filename.rsplit('.', 1)[1]`: the characters after the last dot. -/
def afterLastDot (l : List Char) : List Char :=
  (l.reverse.takeWhile (fun c => c != '.')).reverse

/-- `allowed_file` from src/api.py: a dot must occur, and the lowercased
extension after the last dot must be in the allow-list. -/
def allowed_file (filename : List Char) : Bool :=
  filename.contains '.' &&
    ALLOWED_EXTENSIONS.contains (String.mk ((afterLastDot filename).map Char.toLower))

/-- Case-insensitive match of two character strings, the spec-side reading
of "matches, case-insensitively". -/
def caseInsensitiveEqChars (a b : List Char) : Prop :=
  a.map Char.toLower = b.map Char.toLower

theorem string_mk_data (s : String) : String.mk s.data = s := rfl

theorem allowed_extensions_lower :
    ∀ e ∈ ALLOWED_EXTENSIONS, e.data.map Char.toLower = e.data := by decide

/-- C9: `allowed_file` accepts exactly the filenames containing a dot whose
last-dot suffix matches one of the 25 allow-listed extensions up to case;
dot-free names are rejected, upper-case variants of allowed extensions are
accepted. -/
theorem C9_file_type_edge :
    (∀ filename : List Char,
      allowed_file filename = true ↔
        ('.' ∈ filename ∧ ∃ e ∈ ALLOWED_EXTENSIONS,
          caseInsensitiveEqChars (afterLastDot filename) e.data))
    ∧ allowed_file "README".data = false
    ∧ allowed_file "photo.JPG".data = true
    ∧ ALLOWED_EXTENSIONS.length = 25 := by
  refine ⟨?_, by decide, by decide, by decide⟩
  intro filename
  unfold allowed_file
  rw [Bool.and_eq_true]
  constructor
  · rintro ⟨hdot, hmem⟩
    refine ⟨by simpa using hdot, ?_⟩
    rw [List.contains_iff_exists_mem_beq] at hmem
    obtain ⟨e, he, heq⟩ := hmem
    refine ⟨e, he, ?_⟩
    have hbe : String.mk ((afterLastDot filename).map Char.toLower) = e := by
      exact eq_of_beq heq
    have hdata : (afterLastDot filename).map Char.toLower = e.data := by
      rw [← hbe]
    unfold caseInsensitiveEqChars
    rw [hdata, allowed_extensions_lower e he]
  · rintro ⟨hdot, e, he, heq⟩
    have hlow := allowed_extensions_lower e he
    unfold caseInsensitiveEqChars at heq
    rw [hlow] at heq
    constructor
    · simpa using hdot
    · rw [List.contains_iff_exists_mem_beq]
      refine ⟨e, he, ?_⟩
      have : String.mk ((afterLastDot filename).map Char.toLower) = e := by
        rw [heq]
      simpa using this

/-! ## Ordering relations used by the `order_by` clauses -/

/-- `order_by(Message.id.asc())`. -/
def msgLeId (a b : Message) : Prop := a.id ≤ b.id

instance : DecidableRel msgLeId := fun a b => inferInstanceAs (Decidable (a.id ≤ b.id))

instance : IsTotal Message msgLeId := ⟨fun a b => Nat.le_total a.id b.id⟩

instance : IsTrans Message msgLeId := ⟨fun _ _ _ h1 h2 => Nat.le_trans h1 h2⟩

/-- `order_by(Message.sent_at.asc())`. -/
def msgLeSent (a b : Message) : Prop := a.sent_at ≤ b.sent_at

instance : DecidableRel msgLeSent := fun a b => inferInstanceAs (Decidable (a.sent_at ≤ b.sent_at))

instance : IsTotal Message msgLeSent := ⟨fun a b => Int.le_total a.sent_at b.sent_at⟩

instance : IsTrans Message msgLeSent := ⟨fun _ _ _ h1 h2 => Int.le_trans h1 h2⟩

def orderByIdAsc (l : List Message) : List Message := l.insertionSort msgLeId

def orderBySentAsc (l : List Message) : List Message := l.insertionSort msgLeSent

/-! ## The delivery cursor protocol: `get_updates` (src/api.py lines 577-638)

The `timeout` long-poll loop re-runs the same query against the same state
until it is non-empty, so on a fixed state it returns exactly the immediate
query result; the embedding therefore models the `timeout = 0` path. -/

/-- The query built from the optional `offset` argument (lines 589-595). -/
def updatesQuery (uid : String) (offset : Option Int) (s : ServerState) : List Message :=
  match offset with
  | none => s.messages.filter (fun m => m.receiver_id == uid)
  | some n => s.messages.filter (fun m => m.receiver_id == uid && decide (n < (m.id : Int)))

/-- `query.order_by(Message.id.asc()).limit(limit).all()` (line 605). -/
def pollMessages (uid : String) (offset : Option Int) (limit : Nat) (s : ServerState) :
    List Message :=
  (orderByIdAsc (updatesQuery uid offset s)).take limit

/-- The running `max_update_id` accumulator of lines 608-612. -/
def foldMaxId (msgs : List Message) (a : Int) : Int :=
  msgs.foldl (fun acc m => max acc ((m.id : Nat) : Int)) a

/-- `next_offset = max_update_id + 1 if updates else (offset or 0)` (line 620). -/
def pollNextOffset (uid : String) (offset : Option Int) (limit : Nat) (s : ServerState) : Int :=
  if (pollMessages uid offset limit s).isEmpty then pyOrZero offset
  else foldMaxId (pollMessages uid offset limit s) (pyOrZero offset) + 1

/-- `get_updates`: returns the updates and the next offset, and marks every
returned undelivered message delivered with its read counter incremented
(lines 610-618). -/
def get_updates (uid : String) (offset : Option Int) (limit : Nat) (s : ServerState) :
    (List Message × Int) × ServerState :=
  ((pollMessages uid offset limit s, pollNextOffset uid offset limit s),
   { s with messages := s.messages.map (fun m =>
      if (pollMessages uid offset limit s).any (fun x => x.id == m.id) && !m.is_delivered then
        { m with is_delivered := true, read_count := m.read_count + 1 }
      else m) })

/-! ### Lemmas about the poll query -/

theorem mem_updatesQuery_of_mem_poll {uid : String} {off : Option Int} {lim : Nat}
    {s : ServerState} {m : Message} (h : m ∈ pollMessages uid off lim s) :
    m ∈ updatesQuery uid off s := by
  have h1 : m ∈ orderByIdAsc (updatesQuery uid off s) := List.mem_of_mem_take h
  unfold orderByIdAsc at h1
  exact (List.perm_insertionSort msgLeId _).mem_iff.mp h1

theorem mem_messages_of_mem_updatesQuery {uid : String} {off : Option Int}
    {s : ServerState} {m : Message} (h : m ∈ updatesQuery uid off s) :
    m ∈ s.messages := by
  unfold updatesQuery at h
  cases off <;> exact (List.mem_filter.mp h).1

theorem offset_lt_of_mem_updatesQuery {uid : String} {n : Int}
    {s : ServerState} {m : Message} (h : m ∈ updatesQuery uid (some n) s) :
    n < (m.id : Int) := by
  unfold updatesQuery at h
  have hp := (List.mem_filter.mp h).2
  rw [Bool.and_eq_true] at hp
  exact of_decide_eq_true hp.2

theorem le_foldMaxId_init (l : List Message) (a : Int) : a ≤ foldMaxId l a := by
  induction l generalizing a with
  | nil => exact le_refl a
  | cons b t ih =>
    calc a ≤ max a ((b.id : Nat) : Int) := le_max_left _ _
    _ ≤ foldMaxId t (max a ((b.id : Nat) : Int)) := ih _

theorem le_foldMaxId_mem {l : List Message} {m : Message} (hm : m ∈ l) (a : Int) :
    (m.id : Int) ≤ foldMaxId l a := by
  induction l generalizing a with
  | nil => cases hm
  | cons b t ih =>
    rcases List.mem_cons.mp hm with h | h
    · subst h
      calc (m.id : Int) ≤ max a (m.id : Int) := le_max_right _ _
      _ ≤ foldMaxId t (max a (m.id : Int)) := le_foldMaxId_init _ _
    · exact ih h _

theorem foldMaxId_eq_init_or_mem (l : List Message) (a : Int) :
    foldMaxId l a = a ∨ ∃ m ∈ l, foldMaxId l a = (m.id : Int) := by
  induction l generalizing a with
  | nil => exact Or.inl rfl
  | cons b t ih =>
    rcases ih (max a ((b.id : Nat) : Int)) with h | h
    · rcases max_choice a ((b.id : Nat) : Int) with hm | hm
      · exact Or.inl (by rw [show foldMaxId (b :: t) a = foldMaxId t (max a _) from rfl, h, hm])
      · refine Or.inr ⟨b, List.mem_cons_self b t, ?_⟩
        rw [show foldMaxId (b :: t) a = foldMaxId t (max a _) from rfl, h, hm]
    · obtain ⟨m, hmem, heq⟩ := h
      exact Or.inr ⟨m, List.mem_cons_of_mem b hmem, heq⟩

theorem lt_pollNextOffset_of_mem {uid : String} {off : Option Int} {lim : Nat}
    {s : ServerState} {m : Message} (h : m ∈ pollMessages uid off lim s) :
    (m.id : Int) < pollNextOffset uid off lim s := by
  unfold pollNextOffset
  rw [if_neg (by simp [List.isEmpty_iff]; exact List.ne_nil_of_mem h)]
  have := le_foldMaxId_mem h (pyOrZero off)
  omega

/-- C4: a poll with `offset = N` returns only messages with sequence number
strictly greater than `N`, and a second poll resumed with the first poll's
`next_offset` (against the post-first-poll state) returns no message row
that the first poll returned. -/
theorem C4_cursor_exclusion :
    (∀ (uid : String) (N : Int) (lim : Nat) (s : ServerState) (m : Message),
      m ∈ ((get_updates uid (some N) lim s).1).1 → N < (m.id : Int))
    ∧ (∀ (uid : String) (off : Option Int) (lim1 lim2 : Nat) (s : ServerState)
        (m2 m1 : Message),
        m2 ∈ ((get_updates uid (some ((get_updates uid off lim1 s).1.2)) lim2
                ((get_updates uid off lim1 s).2)).1).1 →
        m1 ∈ ((get_updates uid off lim1 s).1).1 →
        m2.id ≠ m1.id) := by
  constructor
  · intro uid N lim s m h
    exact offset_lt_of_mem_updatesQuery (mem_updatesQuery_of_mem_poll h)
  · intro uid off lim1 lim2 s m2 m1 h2 h1
    have hlt2 : ((get_updates uid off lim1 s).1.2) < (m2.id : Int) :=
      offset_lt_of_mem_updatesQuery (mem_updatesQuery_of_mem_poll h2)
    have hlt1 : (m1.id : Int) < (get_updates uid off lim1 s).1.2 :=
      lt_pollNextOffset_of_mem h1
    intro hEq
    rw [hEq] at hlt2
    omega

/-- C5: polls return messages in ascending sequence order; with messages the
next offset is the maximum returned sequence number plus one; without, it is
the input offset (or 0 when no offset was supplied). -/
theorem C5_next_offset_computation :
    ∀ (uid : String) (off : Option Int) (lim : Nat) (s : ServerState),
      List.Sorted msgLeId ((get_updates uid off lim s).1).1
      ∧ (((get_updates uid off lim s).1).1 ≠ [] →
          ∃ m ∈ ((get_updates uid off lim s).1).1,
            (get_updates uid off lim s).1.2 = (m.id : Int) + 1
            ∧ ∀ m' ∈ ((get_updates uid off lim s).1).1, m'.id ≤ m.id)
      ∧ (((get_updates uid off lim s).1).1 = [] →
          (get_updates uid off lim s).1.2 =
            (match off with | some n => n | none => 0)) := by
  intro uid off lim s
  refine ⟨?_, ?_, ?_⟩
  · have hs : List.Sorted msgLeId (orderByIdAsc (updatesQuery uid off s)) :=
      List.sorted_insertionSort msgLeId _
    exact hs.sublist (List.take_sublist lim _)
  · intro hne
    replace hne : pollMessages uid off lim s ≠ [] := hne
    show ∃ m ∈ pollMessages uid off lim s, pollNextOffset uid off lim s = (m.id : Int) + 1
      ∧ ∀ m' ∈ pollMessages uid off lim s, m'.id ≤ m.id
    have hnot : (pollMessages uid off lim s).isEmpty = false := by
      simpa [List.isEmpty_iff] using hne
    rcases foldMaxId_eq_init_or_mem (pollMessages uid off lim s) (pyOrZero off) with h | h
    · -- the fold never left its initial value: every returned id is at most
      -- `offset or 0`, which with the query filter forces offset = none and
      -- all returned ids to be 0
      obtain ⟨m0, hm0⟩ := List.exists_mem_of_ne_nil _ hne
      have hle : (m0.id : Int) ≤ pyOrZero off := by
        have h2 := le_foldMaxId_mem hm0 (pyOrZero off)
        rw [h] at h2
        exact h2
      have hid0 : (m0.id : Int) = pyOrZero off := by
        cases off with
        | none =>
          simp only [pyOrZero, Option.getD_none] at hle ⊢
          omega
        | some n =>
          have := offset_lt_of_mem_updatesQuery (mem_updatesQuery_of_mem_poll hm0)
          simp only [pyOrZero, Option.getD_some] at hle ⊢
          omega
      refine ⟨m0, hm0, ?_, ?_⟩
      · unfold pollNextOffset
        rw [if_neg (by rw [hnot]; exact Bool.false_ne_true), h, hid0]
      · intro m' hm'
        have h3 := le_foldMaxId_mem hm' (pyOrZero off)
        rw [h] at h3
        have : (m'.id : Int) ≤ (m0.id : Int) := by rw [hid0]; exact h3
        exact_mod_cast this
    · obtain ⟨m, hm, heq⟩ := h
      refine ⟨m, hm, ?_, ?_⟩
      · unfold pollNextOffset
        rw [if_neg (by rw [hnot]; exact Bool.false_ne_true), heq]
      · intro m' hm'
        have h3 := le_foldMaxId_mem hm' (pyOrZero off)
        rw [heq] at h3
        exact_mod_cast h3
  · intro hempty
    replace hempty : pollMessages uid off lim s = [] := hempty
    show pollNextOffset uid off lim s = _
    unfold pollNextOffset
    rw [if_pos (by rw [hempty]; rfl)]
    cases off <;> rfl

/-- C10: a poll with `offset = 0` is indistinguishable from a poll with the
offset omitted whenever every stored sequence number is at least 1 (always
true of reachable states, where ids come from the autoincrement counter
starting at 1). -/
theorem C10_offset_zero_equivalence (uid : String) (lim : Nat) (s : ServerState)
    (h : ∀ m ∈ s.messages, 1 ≤ m.id) :
    get_updates uid (some 0) lim s = get_updates uid none lim s := by
  have hq : updatesQuery uid (some 0) s = updatesQuery uid none s := by
    unfold updatesQuery
    apply List.filter_congr
    intro m hm
    have h1 := h m hm
    have : decide ((0 : Int) < (m.id : Int)) = true := by
      rw [decide_eq_true_eq]
      omega
    rw [this, Bool.and_true]
  have hp : pollMessages uid (some 0) lim s = pollMessages uid none lim s := by
    unfold pollMessages
    rw [hq]
  unfold get_updates pollNextOffset
  rw [hp]
  rfl

/-! ### Concrete fixtures used by witnesses and counterexamples -/

def wUser (uid : String) : User :=
  { user_id := uid, username := uid, storage_used := 0, message_count := 0, is_active := true }

def wTextMsg (i : Nat) (sender receiver : String) (t : Int) : Message :=
  { id := i, message_id := i, message_type := "text", text_content := some "hi",
    file_id := none, original_name := none, file_name := none, file_path := none,
    file_size := none, mime_type := none, reply_to_message_id := none,
    reply_to_sender_id := none, reply_to_text := none, sender_id := sender,
    sender_username := sender, receiver_id := receiver, sent_at := t,
    expires_at := t + 86400, is_delivered := false, read_count := 0, webhook_sent := false }

def c4State : ServerState :=
  { users := [wUser "A", wUser "B"],
    messages := [wTextMsg 5 "A" "B" 0, wTextMsg 7 "A" "B" 1],
    webhooks := [], disk := [], next_id := 8 }

theorem C4_witness :
    (3 : Int) < ((wTextMsg 5 "A" "B" 0).id : Int)
    ∧ (wTextMsg 7 "A" "B" 1).id ≠ (wTextMsg 5 "A" "B" 0).id := by
  constructor
  · exact C4_cursor_exclusion.1 "B" 3 1 c4State _ (by decide)
  · exact C4_cursor_exclusion.2 "B" (some 3) 1 50 c4State _ _ (by decide) (by decide)

theorem C5_witness :
    (get_updates "B" (some 100) 50 c4State).1.2 = 100 :=
  (C5_next_offset_computation "B" (some 100) 50 c4State).2.2 (by decide)

theorem C10_witness :
    get_updates "B" (some 0) 50 c4State = get_updates "B" none 50 c4State :=
  C10_offset_zero_equivalence "B" 50 c4State (by decide)

/-! ## Sending messages (src/api.py lines 367-575) -/

/-- The distinguishable error responses of the send endpoints. -/
inductive SendErr where
  | unauthorized
  | missingReceiver
  | missingText
  | receiverNotFound
  | emptyFilename
  | fileTooLarge
  | storageLimitExceeded
  | fileTypeNotAllowed
deriving DecidableEq

/-- `get_message_preview` (lines 221-228); the Python f-string renders a
`None` original name as the text "None". -/
def get_message_preview (m : Message) : Option String :=
  match m.message_type with
  | "text" => m.text_content
  | "file" => some ("📎 " ++ (match m.original_name with | some n => n | none => "None")
      ++ (if pyTruthyStr m.text_content then " - " ++ m.text_content.getD "" else ""))
  | "reply" => m.text_content
  | _ => some "Message"

/-- `send_message` (lines 367-452): the success path appends a new message
row with the next sequence id and increments the sender's message counter.
`mid` stands for the random `secrets.token_hex` message id and `now` for
`datetime.now`. -/
def send_message (uid receiver_id text : String) (reply_to : Option Nat)
    (mid : Nat) (now : Int) (s : ServerState) : Except SendErr (ServerState × Nat) :=
  match s.users.find? (fun u => u.user_id == uid && u.is_active) with
  | none => .error .unauthorized
  | some sender =>
    if receiver_id == "" then .error .missingReceiver
    else if text == "" then .error .missingText
    else
      match s.users.find? (fun u => u.user_id == receiver_id && u.is_active) with
      | none => .error .receiverNotFound
      | some _ =>
        let orig := reply_to.bind (fun rid => s.messages.find? (fun m => m.message_id == rid))
        let msg : Message :=
          { id := s.next_id, message_id := mid,
            message_type := if reply_to.isSome then "reply" else "text",
            text_content := some text,
            file_id := none, original_name := none, file_name := none,
            file_path := none, file_size := none, mime_type := none,
            reply_to_message_id := reply_to,
            reply_to_sender_id := orig.map (fun m => m.sender_id),
            reply_to_text := orig.bind get_message_preview,
            sender_id := sender.user_id, sender_username := sender.username,
            receiver_id := receiver_id,
            sent_at := now, expires_at := now + MESSAGE_AUTO_DELETE_HOURS * 3600,
            is_delivered := false, read_count := 0, webhook_sent := false }
        .ok ({ s with
                messages := s.messages ++ [msg],
                users := updateFirst (fun u => u.user_id == sender.user_id)
                  (fun u => { u with message_count := u.message_count + 1 }) s.users,
                next_id := s.next_id + 1 }, s.next_id)

/-- `send_file` (lines 454-575), with the code's exact guard order: empty
filename, missing receiver id, the 30MiB single-file check, the per-user
storage pre-check, receiver lookup, and the `allowed_file` gate.  On
success the file is saved (`disk`), the message row appended, and the
sender's ledger increased by the file size and one message. -/
def send_file (uid receiver_id : String) (filename : List Char) (size : Nat)
    (caption mime : String) (reply_to : Option Nat) (fid mid : Nat) (now : Int)
    (s : ServerState) : Except SendErr (ServerState × Nat) :=
  match s.users.find? (fun u => u.user_id == uid && u.is_active) with
  | none => .error .unauthorized
  | some sender =>
    if filename.isEmpty then .error .emptyFilename
    else if receiver_id == "" then .error .missingReceiver
    else if 30 * 1024 * 1024 < size then .error .fileTooLarge
    else if MAX_USER_STORAGE < sender.storage_used + (size : Int) then .error .storageLimitExceeded
    else
      match s.users.find? (fun u => u.user_id == receiver_id && u.is_active) with
      | none => .error .receiverNotFound
      | some _ =>
        if allowed_file filename then
          let orig := reply_to.bind (fun rid => s.messages.find? (fun m => m.message_id == rid))
          let msg : Message :=
            { id := s.next_id, message_id := mid, message_type := "file",
              text_content := some caption,
              file_id := some fid,
              original_name := some (String.mk filename),
              file_name := some (String.mk filename),
              file_path := some fid,
              file_size := some size,
              mime_type := some mime,
              reply_to_message_id := reply_to,
              reply_to_sender_id := orig.map (fun m => m.sender_id),
              reply_to_text := orig.bind get_message_preview,
              sender_id := sender.user_id, sender_username := sender.username,
              receiver_id := receiver_id,
              sent_at := now, expires_at := now + MESSAGE_AUTO_DELETE_HOURS * 3600,
              is_delivered := false, read_count := 0, webhook_sent := false }
          .ok ({ s with
                  messages := s.messages ++ [msg],
                  users := updateFirst (fun u => u.user_id == sender.user_id)
                    (fun u => { u with
                      storage_used := u.storage_used + (size : Int),
                      message_count := u.message_count + 1 }) s.users,
                  disk := fid :: s.disk,
                  next_id := s.next_id + 1 }, s.next_id)
        else .error .fileTypeNotAllowed

/-- C6: when the single-file size check, the type check and the receiver
lookup all pass, `send_file` is rejected with the storage-limit error
exactly when `storage_used + size` strictly exceeds the 100MiB per-user
cap; landing exactly on the cap succeeds. -/
theorem C6_quota_boundary (uid receiver_id : String) (filename : List Char) (size : Nat)
    (caption mime : String) (reply_to : Option Nat) (fid mid : Nat) (now : Int)
    (s : ServerState) (sender : User)
    (hauth : s.users.find? (fun u => u.user_id == uid && u.is_active) = some sender)
    (hfn : filename.isEmpty = false)
    (hrid : (receiver_id == "") = false)
    (hsize : size ≤ 30 * 1024 * 1024)
    (htype : allowed_file filename = true)
    (hrecv : (s.users.find? (fun u => u.user_id == receiver_id && u.is_active)).isSome) :
    ((send_file uid receiver_id filename size caption mime reply_to fid mid now s
        = Except.error SendErr.storageLimitExceeded)
      ↔ MAX_USER_STORAGE < sender.storage_used + (size : Int))
    ∧ (sender.storage_used + (size : Int) = MAX_USER_STORAGE →
        ∃ s' n, send_file uid receiver_id filename size caption mime reply_to fid mid now s
          = Except.ok (s', n)) := by
  obtain ⟨recv, hrecv'⟩ := Option.isSome_iff_exists.mp hrecv
  have hns : ¬ (30 * 1024 * 1024 < size) := by omega
  constructor
  · constructor
    · intro hres
      by_contra hlt
      unfold send_file at hres
      rw [hauth] at hres
      simp only [hfn, Bool.false_eq_true, if_false, hrid, if_neg hns, if_neg hlt,
        hrecv', htype, if_true] at hres
      exact absurd hres (by simp)
    · intro hlt
      unfold send_file
      rw [hauth]
      simp only [hfn, Bool.false_eq_true, if_false, hrid, if_neg hns, if_pos hlt]
  · intro heq
    have hlt : ¬ (MAX_USER_STORAGE < sender.storage_used + (size : Int)) := by omega
    unfold send_file
    rw [hauth]
    simp only [hfn, Bool.false_eq_true, if_false, hrid, if_neg hns, if_neg hlt,
      hrecv', htype, if_true]
    exact ⟨_, _, rfl⟩

def c6Sender : User :=
  { user_id := "A", username := "A", storage_used := 70 * 1024 * 1024,
    message_count := 3, is_active := true }

def c6State : ServerState :=
  { users := [c6Sender, wUser "B"], messages := [], webhooks := [], disk := [], next_id := 4 }

theorem C6_witness :
    ¬ (send_file "A" "B" "doc.pdf".data (30 * 1024 * 1024) "" "application/pdf" none 9 10 0 c6State
        = Except.error SendErr.storageLimitExceeded) := by
  intro hc
  have h := (C6_quota_boundary "A" "B" "doc.pdf".data (30 * 1024 * 1024) "" "application/pdf"
    none 9 10 0 c6State c6Sender (by decide) (by decide) (by decide) (by decide)
    (by decide) (by decide)).1.mp hc
  revert h
  decide

/-! ## Ledger bookkeeping quantities -/

/-- The Int value of a message's `file_size` column (`None` counted as 0). -/
def intSize (m : Message) : Int := ((m.file_size.getD 0 : Nat) : Int)

/-- Sum of file sizes over the currently-stored messages sent by `uid`. -/
def sentFileBytes (msgs : List Message) (uid : String) : Int :=
  ((msgs.filter (fun m => m.sender_id == uid)).map intSize).sum

/-- Number of currently-stored messages sent by `uid`. -/
def sentCount (msgs : List Message) (uid : String) : Nat :=
  (msgs.filter (fun m => m.sender_id == uid)).length

/-- `get_total_storage_used` (lines 177-179): store-wide sum of the non-null
file sizes. -/
def get_total_storage_used (s : ServerState) : Int :=
  ((s.messages.filter (fun m => m.file_size.isSome)).map intSize).sum

/-! ## Retention sweep and cap enforcement (src/api.py lines 230-301)

Every deletion in the retention engine follows the same triad: remove the
backing file (tolerating an already-missing file), adjust the sender's
ledger, delete the record.  The three call sites differ only in how the
ledger is adjusted, so the triad is factored into one step function per
call site.  -/

/-- `if message.file_path and os.path.exists(...): os.remove(...)`. -/
def removeBackingFile (st : ServerState) (m : Message) : ServerState :=
  match m.file_path with
  | some p =>
      if st.disk.contains p then { st with disk := st.disk.filter (fun q => q != p) } else st
  | none => st

/-- Whether the `os.path.exists` branch fired (it guards the
`deleted_size += message.file_size` bookkeeping of the two cap loops). -/
def diskDeleted (st : ServerState) (m : Message) : Bool :=
  match m.file_path with
  | some p => st.disk.contains p
  | none => false

/-- The clamped ledger decrement of `cleanup_old_messages` and the global
cap loop: `max(0, storage_used - file_size)`, `max(0, message_count - 1)`. -/
def clampAdjust (m : Message) (u : User) : User :=
  { u with
    storage_used := max 0 (u.storage_used - intSize m),
    message_count := max 0 (u.message_count - 1) }

/-- The unclamped ledger decrement of the per-user cap loop:
`user.storage_used -= file_size`, `user.message_count -= 1`. -/
def userAdjust (m : Message) (u : User) : User :=
  { u with
    storage_used := u.storage_used - intSize m,
    message_count := u.message_count - 1 }

/-- Deletion triad of the two cap-enforcement loops' shared shape in
`enforce_storage_limits`'s global phase (lines 264-273): clamped ledger
adjustment on the first user whose id is the message's sender, then record
deletion. -/
def deleteWithClampedAdjust (st : ServerState) (m : Message) : ServerState :=
  { removeBackingFile st m with
    users := (updateFirst (fun u => u.user_id == m.sender_id) (clampAdjust m)
      (removeBackingFile st m).users),
    messages := (removeBackingFile st m).messages.filter (fun x => x.id != m.id) }

/-- Deletion triad of the per-user loop (lines 290-296): the adjustment
targets the user row being processed and is NOT clamped. -/
def deleteWithUserAdjust (uid : String) (st : ServerState) (m : Message) : ServerState :=
  { removeBackingFile st m with
    users := (updateFirst (fun u => u.user_id == uid) (userAdjust m)
      (removeBackingFile st m).users),
    messages := (removeBackingFile st m).messages.filter (fun x => x.id != m.id) }

/-- One iteration of the cleanup loop (lines 235-245): the ledger is only
adjusted when `message.file_size` is truthy (so expired messages without a
file, and zero-byte files, are deleted without any ledger adjustment). -/
def deleteOldMessage (st : ServerState) (m : Message) : ServerState :=
  if pyTruthyNat m.file_size then deleteWithClampedAdjust st m
  else
    { removeBackingFile st m with
      messages := (removeBackingFile st m).messages.filter (fun x => x.id != m.id) }

/-- The snapshot query `Message.query.filter(Message.sent_at < cutoff)`. -/
def expiredMsgs (now : Int) (s : ServerState) : List Message :=
  s.messages.filter (fun m => decide (m.sent_at < now - MESSAGE_AUTO_DELETE_HOURS * 3600))

/-- `cleanup_old_messages`: delete every message older than the 24h cutoff,
iterating the per-message triad over the snapshot query result. -/
def cleanup_old_messages (now : Int) (s : ServerState) : ServerState :=
  (expiredMsgs now s).foldl deleteOldMessage s

/-- The global-cap loop (lines 256-275): `total` is the snapshot taken
before the loop, `deleted` the running `deleted_size`, only increased when
the backing file actually existed on disk. -/
def globalEvict (total : Int) : List Message → Int → ServerState → ServerState
  | [], _, st => st
  | m :: rest, deleted, st =>
    if total - deleted ≤ MAX_TOTAL_STORAGE then st
    else globalEvict total rest
      (if diskDeleted st m then deleted + intSize m else deleted)
      (deleteWithClampedAdjust st m)

/-- The per-user loop (lines 284-296): the break condition compares the
LIVE `user.storage_used` (already decremented by previous iterations)
minus the running `deleted_size` — the double-counting at the heart of
claim C2. -/
def perUserEvict (uid : String) : List Message → Int → ServerState → ServerState
  | [], _, st => st
  | m :: rest, deleted, st =>
    if ((st.users.find? (fun u => u.user_id == uid)).map User.storage_used).getD 0 - deleted
        ≤ MAX_USER_STORAGE then st
    else perUserEvict uid rest
      (if diskDeleted st m then deleted + intSize m else deleted)
      (deleteWithUserAdjust uid st m)

/-- The per-user phase body (lines 277-298), one user at a time; the user
row is read live from the current state. -/
def perUserStep (st : ServerState) (uid : String) : ServerState :=
  match st.users.find? (fun u => u.user_id == uid) with
  | none => st
  | some u =>
    if MAX_USER_STORAGE < u.storage_used then
      perUserEvict uid
        (orderBySentAsc (st.messages.filter (fun m => m.sender_id == uid && m.file_size.isSome)))
        0 st
    else st

/-- `enforce_storage_limits`: the global phase (when the store-wide total
exceeds 700MiB, evict file-bearing messages oldest-sent-first), then the
per-user phase over all users. -/
def enforce_storage_limits (s : ServerState) : ServerState :=
  let total := get_total_storage_used s
  let s1 := if MAX_TOTAL_STORAGE < total then
      globalEvict total (orderBySentAsc (s.messages.filter (fun m => m.file_size.isSome))) 0 s
    else s
  (s1.users.map User.user_id).foldl perUserStep s1

/-! ## File download (src/api.py lines 674-709) -/

inductive DlRes where
  | invalidKey
  | notFound
  | accessDenied
  | notOnServer
  | fileContent (p : Nat)
deriving DecidableEq

/-- `download_file`: point lookup by file id, participant check, disk
check; on success the message's `read_count` is incremented and the file
returned. -/
def download_file (uid : String) (fid : Nat) (s : ServerState) : ServerState × DlRes :=
  match s.users.find? (fun u => u.user_id == uid && u.is_active) with
  | none => (s, .invalidKey)
  | some user =>
    match s.messages.find? (fun m => m.file_id == some fid) with
    | none => (s, .notFound)
    | some m =>
      if m.sender_id != user.user_id && m.receiver_id != user.user_id then (s, .accessDenied)
      else
        match m.file_path with
        | none => (s, .notOnServer)
        | some p =>
          if s.disk.contains p then
            ({ s with messages := (updateFirst (fun x => x.file_id == some fid)
                (fun x => { x with read_count := x.read_count + 1 }) s.messages) }, .fileContent p)
          else (s, .notOnServer)

/-! ## Webhook notifier (src/api.py lines 181-219)

`httpResult = none` models `requests.post` raising (transport failure,
caught by the `except` block before any mutation); `some code` models a
completed HTTP exchange with that status code, after which the code marks
`last_triggered` and `webhook_sent` unconditionally and reports success
exactly for status 200. -/
def send_webhook_notification (user_id : String) (data_message_id : Nat) (now : Int)
    (httpResult : Option Nat) (s : ServerState) : ServerState × Bool :=
  match s.webhooks.find? (fun w => w.user_id == user_id && w.is_active) with
  | none => (s, false)
  | some _ =>
    match httpResult with
    | none => (s, false)
    | some code =>
      let s1 := { s with webhooks := (updateFirst (fun w => w.user_id == user_id && w.is_active)
          (fun w => { w with last_triggered := some now }) s.webhooks) }
      let s2 := { s1 with messages := (updateFirst (fun m => m.message_id == data_message_id)
          (fun m => { m with webhook_sent := true }) s1.messages) }
      (s2, code == 200)

/-! ## State predicates -/

/-- Well-formedness invariant carried through every operation: the ledger
facts (storage exactly the sum of the account's stored file bytes, message
count at least the number of stored sent messages), distinct user ids,
distinct message sequence ids, and all sequence ids below the
autoincrement counter. -/
def WfState (s : ServerState) : Prop :=
  (∀ u ∈ s.users,
      u.storage_used = sentFileBytes s.messages u.user_id
      ∧ (sentCount s.messages u.user_id : Int) ≤ u.message_count)
  ∧ (s.users.map User.user_id).Nodup
  ∧ (s.messages.map Message.id).Nodup
  ∧ (∀ m ∈ s.messages, m.id < s.next_id)

instance (s : ServerState) : Decidable (WfState s) := by
  unfold WfState
  infer_instance

/-- The ledger invariant exactly as claim C1 states it: both counters
exact, neither negative. -/
def LedgerExact (s : ServerState) : Prop :=
  ∀ u ∈ s.users,
    u.storage_used = sentFileBytes s.messages u.user_id
    ∧ u.message_count = (sentCount s.messages u.user_id : Int)
    ∧ 0 ≤ u.storage_used ∧ 0 ≤ u.message_count

instance (s : ServerState) : Decidable (LedgerExact s) := by
  unfold LedgerExact
  infer_instance

/-- The storage counter of the (unique) user row with the given id. -/
def storageOf (s : ServerState) (uid : String) : Option Int :=
  (s.users.find? (fun u => u.user_id == uid)).map User.storage_used

/-- The message counter of the (unique) user row with the given id. -/
def mcOf (s : ServerState) (uid : String) : Option Int :=
  (s.users.find? (fun u => u.user_id == uid)).map User.message_count

/-! ## Arithmetic lemmas about the ledger sums -/

theorem intSize_nonneg (m : Message) : 0 ≤ intSize m := Int.natCast_nonneg _

theorem sentFileBytes_nonneg (msgs : List Message) (uid : String) :
    0 ≤ sentFileBytes msgs uid := by
  apply List.sum_nonneg
  intro x hx
  obtain ⟨m, -, rfl⟩ := List.mem_map.mp hx
  exact intSize_nonneg m

theorem sentFileBytes_cons (a : Message) (t : List Message) (uid : String) :
    sentFileBytes (a :: t) uid
      = (if a.sender_id == uid then intSize a else 0) + sentFileBytes t uid := by
  unfold sentFileBytes
  cases h : (a.sender_id == uid) <;> simp [List.filter_cons, h]

theorem sentCount_cons (a : Message) (t : List Message) (uid : String) :
    sentCount (a :: t) uid
      = (if a.sender_id == uid then 1 else 0) + sentCount t uid := by
  unfold sentCount
  cases h : (a.sender_id == uid) <;> simp [List.filter_cons, h, Nat.add_comm]

theorem sentFileBytes_append (l : List Message) (m : Message) (uid : String) :
    sentFileBytes (l ++ [m]) uid
      = sentFileBytes l uid + (if m.sender_id == uid then intSize m else 0) := by
  induction l with
  | nil =>
    rw [List.nil_append, sentFileBytes_cons]
    exact add_comm _ _
  | cons a t ih =>
    rw [List.cons_append, sentFileBytes_cons, ih, sentFileBytes_cons]
    ring

theorem sentCount_append (l : List Message) (m : Message) (uid : String) :
    sentCount (l ++ [m]) uid
      = sentCount l uid + (if m.sender_id == uid then 1 else 0) := by
  induction l with
  | nil =>
    rw [List.nil_append, sentCount_cons]
    exact Nat.add_comm _ _
  | cons a t ih =>
    rw [List.cons_append, sentCount_cons, ih, sentCount_cons]
    omega

theorem intSize_le_sentFileBytes {msgs : List Message} {m : Message} {uid : String}
    (hm : m ∈ msgs) (hs : (m.sender_id == uid) = true) :
    intSize m ≤ sentFileBytes msgs uid := by
  have h1 : m ∈ msgs.filter (fun x => x.sender_id == uid) := List.mem_filter.mpr ⟨hm, hs⟩
  have h2 : intSize m ∈ (msgs.filter (fun x => x.sender_id == uid)).map intSize :=
    List.mem_map_of_mem intSize h1
  exact List.single_le_sum (fun x hx => by
    obtain ⟨y, -, rfl⟩ := List.mem_map.mp hx
    exact intSize_nonneg y) _ h2

theorem one_le_sentCount {msgs : List Message} {m : Message} {uid : String}
    (hm : m ∈ msgs) (hs : (m.sender_id == uid) = true) :
    1 ≤ sentCount msgs uid := by
  have h1 : m ∈ msgs.filter (fun x => x.sender_id == uid) := List.mem_filter.mpr ⟨hm, hs⟩
  exact List.length_pos.mpr (List.ne_nil_of_mem h1)

theorem sentFileBytes_erase_id {msgs : List Message} {m : Message}
    (hN : (msgs.map Message.id).Nodup) (hm : m ∈ msgs) (uid : String) :
    sentFileBytes (msgs.filter (fun x => x.id != m.id)) uid
      = sentFileBytes msgs uid - (if m.sender_id == uid then intSize m else 0) := by
  induction msgs with
  | nil => cases hm
  | cons a t ih =>
    rw [List.map_cons, List.nodup_cons] at hN
    rcases List.mem_cons.mp hm with rfl | hmt
    · have hat : t.filter (fun x => x.id != m.id) = t := by
        apply List.filter_eq_self.mpr
        intro x hx
        have : x.id ≠ m.id := fun hEq => hN.1 (hEq ▸ List.mem_map_of_mem Message.id hx)
        simpa using this
      rw [List.filter_cons, if_neg (by simp), hat, sentFileBytes_cons]
      ring
    · have hne : (a.id != m.id) = true := by
        have : a.id ≠ m.id := fun hEq => hN.1 (hEq ▸ List.mem_map_of_mem Message.id hmt)
        simpa using this
      rw [List.filter_cons, if_pos hne, sentFileBytes_cons,
        sentFileBytes_cons, ih hN.2 hmt]
      ring

theorem sentCount_erase_id {msgs : List Message} {m : Message}
    (hN : (msgs.map Message.id).Nodup) (hm : m ∈ msgs) (uid : String) :
    (sentCount (msgs.filter (fun x => x.id != m.id)) uid : Int)
      = (sentCount msgs uid : Int) - (if m.sender_id == uid then 1 else 0) := by
  induction msgs with
  | nil => cases hm
  | cons a t ih =>
    rw [List.map_cons, List.nodup_cons] at hN
    rcases List.mem_cons.mp hm with rfl | hmt
    · have hat : t.filter (fun x => x.id != m.id) = t := by
        apply List.filter_eq_self.mpr
        intro x hx
        have : x.id ≠ m.id := fun hEq => hN.1 (hEq ▸ List.mem_map_of_mem Message.id hx)
        simpa using this
      rw [List.filter_cons, if_neg (by simp), hat, sentCount_cons]
      push_cast
      ring
    · have hne : (a.id != m.id) = true := by
        have : a.id ≠ m.id := fun hEq => hN.1 (hEq ▸ List.mem_map_of_mem Message.id hmt)
        simpa using this
      have ihh := ih hN.2 hmt
      rw [List.filter_cons, if_pos hne, sentCount_cons, sentCount_cons]
      push_cast at ihh ⊢
      split_ifs at ihh ⊢ <;> omega

/-! ## Lemmas about `updateFirst` and `find?` -/

theorem updateFirst_map_eq {α β : Type} (p : α → Bool) (f : α → α) (g : α → β)
    (hg : ∀ a, g (f a) = g a) (l : List α) :
    (updateFirst p f l).map g = l.map g := by
  induction l with
  | nil => rfl
  | cons a t ih =>
    unfold updateFirst
    by_cases h : p a
    · rw [if_pos h, List.map_cons, List.map_cons, hg]
    · rw [if_neg h, List.map_cons, List.map_cons, ih]

theorem mem_updateFirst {α : Type} {p : α → Bool} {f : α → α} {l : List α} {x : α}
    (hx : x ∈ updateFirst p f l) :
    x ∈ l ∨ ∃ a ∈ l, p a = true ∧ x = f a := by
  induction l with
  | nil => cases hx
  | cons a t ih =>
    unfold updateFirst at hx
    by_cases h : p a
    · rw [if_pos h] at hx
      rcases List.mem_cons.mp hx with rfl | hxt
      · exact Or.inr ⟨a, List.mem_cons_self a t, h, rfl⟩
      · exact Or.inl (List.mem_cons_of_mem a hxt)
    · rw [if_neg h] at hx
      rcases List.mem_cons.mp hx with rfl | hxt
      · exact Or.inl (List.mem_cons_self x t)
      · rcases ih hxt with h1 | ⟨b, hb, hpb, hfb⟩
        · exact Or.inl (List.mem_cons_of_mem a h1)
        · exact Or.inr ⟨b, List.mem_cons_of_mem a hb, hpb, hfb⟩

/-- In a user table with distinct ids, every row of the updated table is
either an untouched row whose id differs from the target, or the image of
the (unique) row carrying the target id. -/
theorem mem_updateFirst_key {l : List User} {uid : String} {f : User → User} {x : User}
    (hN : (l.map User.user_id).Nodup)
    (hx : x ∈ updateFirst (fun u => u.user_id == uid) f l) :
    (x ∈ l ∧ (x.user_id == uid) = false)
    ∨ ∃ a ∈ l, (a.user_id == uid) = true ∧ x = f a := by
  induction l with
  | nil => cases hx
  | cons a t ih =>
    rw [List.map_cons, List.nodup_cons] at hN
    unfold updateFirst at hx
    by_cases h : (a.user_id == uid) = true
    · rw [if_pos h] at hx
      rcases List.mem_cons.mp hx with rfl | hxt
      · exact Or.inr ⟨a, List.mem_cons_self a t, h, rfl⟩
      · refine Or.inl ⟨List.mem_cons_of_mem a hxt, ?_⟩
        have hax : a.user_id = uid := by simpa using h
        have : x.user_id ≠ uid := by
          intro hEq
          exact hN.1 (by rw [hax, ← hEq]; exact List.mem_map_of_mem User.user_id hxt)
        simpa using this
    · rw [if_neg h] at hx
      rcases List.mem_cons.mp hx with rfl | hxt
      · exact Or.inl ⟨List.mem_cons_self x t, by simpa using h⟩
      · rcases ih hN.2 hxt with ⟨h1, h2⟩ | ⟨b, hb, hpb, hfb⟩
        · exact Or.inl ⟨List.mem_cons_of_mem a h1, h2⟩
        · exact Or.inr ⟨b, List.mem_cons_of_mem a hb, hpb, hfb⟩

theorem find?_updateFirst_pres {α : Type} (p : α → Bool) (f : α → α) (l : List α)
    (hf : ∀ a, p (f a) = p a) :
    (updateFirst p f l).find? p = (l.find? p).map f := by
  induction l with
  | nil => rfl
  | cons a t ih =>
    unfold updateFirst
    by_cases h : p a
    · rw [if_pos h, List.find?_cons_of_pos _ (by rw [hf]; exact h),
        List.find?_cons_of_pos _ h]
      rfl
    · rw [if_neg h, List.find?_cons_of_neg _ h,
        List.find?_cons_of_neg _ (by simpa using h), ih]

theorem find?_updateFirst_of_ne {α : Type} (p q : α → Bool) (f : α → α) (l : List α)
    (hq : ∀ a, q (f a) = q a) (hpq : ∀ a, p a = true → q a = false) :
    (updateFirst p f l).find? q = l.find? q := by
  induction l with
  | nil => rfl
  | cons a t ih =>
    unfold updateFirst
    by_cases h : p a
    · rw [if_pos h, List.find?_cons_of_neg _ (by rw [hq]; simp [hpq a h]),
        List.find?_cons_of_neg _ (by simp [hpq a h])]
    · rw [if_neg h]
      by_cases h2 : q a
      · rw [List.find?_cons_of_pos _ h2, List.find?_cons_of_pos _ h2]
      · rw [List.find?_cons_of_neg _ h2, List.find?_cons_of_neg _ h2, ih]

/-! ## Sums are unchanged by mutations that keep sender and size -/

theorem sentFileBytes_map (msgs : List Message) (f : Message → Message) (uid : String)
    (hs : ∀ m, (f m).sender_id = m.sender_id) (hz : ∀ m, (f m).file_size = m.file_size) :
    sentFileBytes (msgs.map f) uid = sentFileBytes msgs uid := by
  induction msgs with
  | nil => rfl
  | cons a t ih =>
    rw [List.map_cons, sentFileBytes_cons, sentFileBytes_cons, ih, hs,
      show intSize (f a) = intSize a by unfold intSize; rw [hz]]

theorem sentCount_map (msgs : List Message) (f : Message → Message) (uid : String)
    (hs : ∀ m, (f m).sender_id = m.sender_id) :
    sentCount (msgs.map f) uid = sentCount msgs uid := by
  induction msgs with
  | nil => rfl
  | cons a t ih =>
    rw [List.map_cons, sentCount_cons, sentCount_cons, ih, hs]

theorem sentFileBytes_updateFirst (msgs : List Message) (p : Message → Bool)
    (f : Message → Message) (uid : String)
    (hs : ∀ m, (f m).sender_id = m.sender_id) (hz : ∀ m, (f m).file_size = m.file_size) :
    sentFileBytes (updateFirst p f msgs) uid = sentFileBytes msgs uid := by
  induction msgs with
  | nil => rfl
  | cons a t ih =>
    unfold updateFirst
    by_cases h : p a
    · rw [if_pos h, sentFileBytes_cons, sentFileBytes_cons, hs,
        show intSize (f a) = intSize a by unfold intSize; rw [hz]]
    · rw [if_neg h, sentFileBytes_cons, sentFileBytes_cons, ih]

theorem sentCount_updateFirst (msgs : List Message) (p : Message → Bool)
    (f : Message → Message) (uid : String)
    (hs : ∀ m, (f m).sender_id = m.sender_id) :
    sentCount (updateFirst p f msgs) uid = sentCount msgs uid := by
  induction msgs with
  | nil => rfl
  | cons a t ih =>
    unfold updateFirst
    by_cases h : p a
    · rw [if_pos h, sentCount_cons, sentCount_cons, hs]
    · rw [if_neg h, sentCount_cons, sentCount_cons, ih]

/-! ## Frame and specification lemmas for the deletion triads -/

theorem removeBackingFile_parts (st : ServerState) (m : Message) :
    (removeBackingFile st m).users = st.users
    ∧ (removeBackingFile st m).messages = st.messages
    ∧ (removeBackingFile st m).next_id = st.next_id := by
  unfold removeBackingFile
  cases m.file_path
  · exact ⟨rfl, rfl, rfl⟩
  · dsimp only
    split <;> exact ⟨rfl, rfl, rfl⟩

theorem intSize_of_not_truthy {m : Message} (h : pyTruthyNat m.file_size = false) :
    intSize m = 0 := by
  unfold intSize
  cases hfs : m.file_size with
  | none => rfl
  | some n =>
    rw [hfs] at h
    unfold pyTruthyNat at h
    have h0 : n = 0 := by simpa using h
    simp [h0]

theorem beq_comm_false {a b : String} (h : (a == b) = false) : (b == a) = false :=
  beq_eq_false_iff_ne.mpr (fun hEq => beq_eq_false_iff_ne.mp h hEq.symm)

theorem beq_comm_true {a b : String} (h : (a == b) = true) : (b == a) = true :=
  beq_iff_eq.mpr (beq_iff_eq.mp h).symm

/-- Full specification of the clamped deletion triad: the record disappears,
ids and counters stay well-formed, and both ledgers of the sender drop by
exactly the message's contribution (the clamp never fires on a well-formed
state). -/
theorem deleteWithClampedAdjust_spec {st : ServerState} {m : Message}
    (hw : WfState st) (hm : m ∈ st.messages) :
    WfState (deleteWithClampedAdjust st m)
    ∧ (deleteWithClampedAdjust st m).messages = st.messages.filter (fun x => x.id != m.id)
    ∧ (deleteWithClampedAdjust st m).next_id = st.next_id
    ∧ (deleteWithClampedAdjust st m).users.map User.user_id = st.users.map User.user_id
    ∧ (∀ uid : String, storageOf (deleteWithClampedAdjust st m) uid
        = (storageOf st uid).map (fun v => v - (if m.sender_id == uid then intSize m else 0)))
    ∧ (∀ uid : String, mcOf (deleteWithClampedAdjust st m) uid
        = (mcOf st uid).map (fun v => v - (if m.sender_id == uid then 1 else 0))) := by
  obtain ⟨hL, hNu, hNm, hB⟩ := hw
  obtain ⟨hru, hrm, hrn⟩ := removeBackingFile_parts st m
  have husers : (deleteWithClampedAdjust st m).users
      = updateFirst (fun u => u.user_id == m.sender_id) (clampAdjust m) st.users := by
    show updateFirst _ _ (removeBackingFile st m).users = _
    rw [hru]
  have hmsgs : (deleteWithClampedAdjust st m).messages
      = st.messages.filter (fun x => x.id != m.id) := by
    show (removeBackingFile st m).messages.filter _ = _
    rw [hrm]
  have hnext : (deleteWithClampedAdjust st m).next_id = st.next_id := hrn
  have hkeys : (deleteWithClampedAdjust st m).users.map User.user_id
      = st.users.map User.user_id := by
    rw [husers]
    exact updateFirst_map_eq (fun u => u.user_id == m.sender_id) (clampAdjust m)
      User.user_id (fun u => rfl) st.users
  refine ⟨⟨?_, ?_, ?_, ?_⟩, hmsgs, hnext, hkeys, ?_, ?_⟩
  · intro x hx
    rw [husers] at hx
    rw [hmsgs]
    rcases mem_updateFirst_key hNu hx with ⟨hxl, hxk⟩ | ⟨a, ha, hak, rfl⟩
    · have hsym : (m.sender_id == x.user_id) = false := beq_comm_false hxk
      obtain ⟨hs, hc⟩ := hL x hxl
      constructor
      · rw [sentFileBytes_erase_id hNm hm, hsym]
        simp only [Bool.false_eq_true, if_false, sub_zero]
        exact hs
      · rw [sentCount_erase_id hNm hm, hsym]
        simp only [Bool.false_eq_true, if_false, sub_zero]
        exact hc
    · have hsym : (m.sender_id == a.user_id) = true := beq_comm_true hak
      obtain ⟨hs, hc⟩ := hL a ha
      have hbnd : intSize m ≤ a.storage_used := by
        rw [hs]
        exact intSize_le_sentFileBytes hm hsym
      have hone : (1 : Int) ≤ (sentCount st.messages a.user_id : Int) := by
        exact_mod_cast one_le_sentCount hm hsym
      constructor
      · rw [sentFileBytes_erase_id hNm hm]
        show max 0 (a.storage_used - intSize m)
          = sentFileBytes st.messages a.user_id
            - (if (m.sender_id == a.user_id) = true then intSize m else 0)
        rw [hsym]
        simp only [if_true]
        rw [max_eq_right (by omega), hs]
      · rw [sentCount_erase_id hNm hm]
        show (sentCount st.messages a.user_id : Int)
            - (if (m.sender_id == a.user_id) = true then 1 else 0)
          ≤ max 0 (a.message_count - 1)
        rw [hsym]
        simp only [if_true]
        rw [max_eq_right (by omega)]
        omega
  · rw [hkeys]
    exact hNu
  · rw [hmsgs]
    exact hNm.sublist ((List.filter_sublist _).map Message.id)
  · intro x hx
    rw [hmsgs] at hx
    rw [hnext]
    exact hB x (List.mem_filter.mp hx).1
  · intro uid
    unfold storageOf
    rw [husers]
    by_cases huid : m.sender_id = uid
    · subst huid
      rw [find?_updateFirst_pres (fun u => u.user_id == m.sender_id) (clampAdjust m)
        st.users (fun u => rfl)]
      cases hfind : st.users.find? (fun u => u.user_id == m.sender_id) with
      | none => rfl
      | some a =>
        have ha : a ∈ st.users := List.mem_of_find?_eq_some hfind
        have hak := List.find?_some hfind
        have hbnd : intSize m ≤ a.storage_used := by
          rw [(hL a ha).1]
          exact intSize_le_sentFileBytes hm (beq_comm_true hak)
        show some (max 0 (a.storage_used - intSize m))
          = some (a.storage_used - if (m.sender_id == m.sender_id) = true then intSize m else 0)
        rw [beq_self_eq_true]
        simp only [if_true]
        rw [max_eq_right (by omega)]
    · rw [find?_updateFirst_of_ne (fun u => u.user_id == m.sender_id)
        (fun u => u.user_id == uid) (clampAdjust m) st.users (fun u => rfl)
        (fun a hpa => by
          have haeq : a.user_id = m.sender_id := beq_iff_eq.mp hpa
          exact beq_eq_false_iff_ne.mpr (fun h2 => huid (by rw [← haeq]; exact h2)))]
      have hcond : (m.sender_id == uid) = false := beq_eq_false_iff_ne.mpr huid
      rw [hcond]
      simp only [Bool.false_eq_true, if_false]
      cases st.users.find? (fun u => u.user_id == uid) <;> simp
  · intro uid
    unfold mcOf
    rw [husers]
    by_cases huid : m.sender_id = uid
    · subst huid
      rw [find?_updateFirst_pres (fun u => u.user_id == m.sender_id) (clampAdjust m)
        st.users (fun u => rfl)]
      cases hfind : st.users.find? (fun u => u.user_id == m.sender_id) with
      | none => rfl
      | some a =>
        have ha : a ∈ st.users := List.mem_of_find?_eq_some hfind
        have hak := List.find?_some hfind
        have hone : (1 : Int) ≤ (sentCount st.messages a.user_id : Int) := by
          exact_mod_cast one_le_sentCount hm (beq_comm_true hak)
        have hc := (hL a ha).2
        show some (max 0 (a.message_count - 1))
          = some (a.message_count - if (m.sender_id == m.sender_id) = true then 1 else 0)
        rw [beq_self_eq_true]
        simp only [if_true]
        rw [max_eq_right (by omega)]
    · rw [find?_updateFirst_of_ne (fun u => u.user_id == m.sender_id)
        (fun u => u.user_id == uid) (clampAdjust m) st.users (fun u => rfl)
        (fun a hpa => by
          have haeq : a.user_id = m.sender_id := beq_iff_eq.mp hpa
          exact beq_eq_false_iff_ne.mpr (fun h2 => huid (by rw [← haeq]; exact h2)))]
      have hcond : (m.sender_id == uid) = false := beq_eq_false_iff_ne.mpr huid
      rw [hcond]
      simp only [Bool.false_eq_true, if_false]
      cases st.users.find? (fun u => u.user_id == uid) <;> simp

/-- Specification of the per-user loop's unclamped deletion triad, for
messages actually sent by the targeted user. -/
theorem deleteWithUserAdjust_spec {st : ServerState} {m : Message} {uid0 : String}
    (hw : WfState st) (hm : m ∈ st.messages) (hsnd : (m.sender_id == uid0) = true) :
    WfState (deleteWithUserAdjust uid0 st m)
    ∧ (deleteWithUserAdjust uid0 st m).messages = st.messages.filter (fun x => x.id != m.id)
    ∧ (deleteWithUserAdjust uid0 st m).next_id = st.next_id
    ∧ (deleteWithUserAdjust uid0 st m).users.map User.user_id = st.users.map User.user_id := by
  obtain ⟨hL, hNu, hNm, hB⟩ := hw
  obtain ⟨hru, hrm, hrn⟩ := removeBackingFile_parts st m
  have hmu : m.sender_id = uid0 := beq_iff_eq.mp hsnd
  have husers : (deleteWithUserAdjust uid0 st m).users
      = updateFirst (fun u => u.user_id == uid0) (userAdjust m) st.users := by
    show updateFirst _ _ (removeBackingFile st m).users = _
    rw [hru]
  have hmsgs : (deleteWithUserAdjust uid0 st m).messages
      = st.messages.filter (fun x => x.id != m.id) := by
    show (removeBackingFile st m).messages.filter _ = _
    rw [hrm]
  have hnext : (deleteWithUserAdjust uid0 st m).next_id = st.next_id := hrn
  have hkeys : (deleteWithUserAdjust uid0 st m).users.map User.user_id
      = st.users.map User.user_id := by
    rw [husers]
    exact updateFirst_map_eq (fun u => u.user_id == uid0) (userAdjust m)
      User.user_id (fun u => rfl) st.users
  refine ⟨⟨?_, ?_, ?_, ?_⟩, hmsgs, hnext, hkeys⟩
  · intro x hx
    rw [husers] at hx
    rw [hmsgs]
    rcases mem_updateFirst_key hNu hx with ⟨hxl, hxk⟩ | ⟨a, ha, hak, rfl⟩
    · have hsym : (m.sender_id == x.user_id) = false :=
        beq_eq_false_iff_ne.mpr
          (fun h => (beq_eq_false_iff_ne.mp hxk) (by rw [← h]; exact hmu))
      obtain ⟨hs, hc⟩ := hL x hxl
      constructor
      · rw [sentFileBytes_erase_id hNm hm, hsym]
        simp only [Bool.false_eq_true, if_false, sub_zero]
        exact hs
      · rw [sentCount_erase_id hNm hm, hsym]
        simp only [Bool.false_eq_true, if_false, sub_zero]
        exact hc
    · have haeq : a.user_id = uid0 := beq_iff_eq.mp hak
      have hsym : (m.sender_id == a.user_id) = true := by
        rw [hmu, haeq]
        exact beq_self_eq_true uid0
      obtain ⟨hs, hc⟩ := hL a ha
      constructor
      · rw [sentFileBytes_erase_id hNm hm]
        show a.storage_used - intSize m
          = sentFileBytes st.messages a.user_id
            - (if (m.sender_id == a.user_id) = true then intSize m else 0)
        rw [hsym]
        simp only [if_true]
        rw [hs]
      · rw [sentCount_erase_id hNm hm]
        show (sentCount st.messages a.user_id : Int)
            - (if (m.sender_id == a.user_id) = true then 1 else 0)
          ≤ a.message_count - 1
        rw [hsym]
        simp only [if_true]
        omega
  · rw [hkeys]
    exact hNu
  · rw [hmsgs]
    exact hNm.sublist ((List.filter_sublist _).map Message.id)
  · intro x hx
    rw [hmsgs] at hx
    rw [hnext]
    exact hB x (List.mem_filter.mp hx).1

/-- Specification of one cleanup iteration: the ledger decrement happens
only for truthy (non-null, non-zero) file sizes — in particular a deleted
text message leaves the sender's message counter untouched. -/
theorem deleteOldMessage_spec {st : ServerState} {m : Message}
    (hw : WfState st) (hm : m ∈ st.messages) :
    WfState (deleteOldMessage st m)
    ∧ (deleteOldMessage st m).messages = st.messages.filter (fun x => x.id != m.id)
    ∧ (deleteOldMessage st m).next_id = st.next_id
    ∧ (deleteOldMessage st m).users.map User.user_id = st.users.map User.user_id
    ∧ (∀ uid : String, storageOf (deleteOldMessage st m) uid
        = (storageOf st uid).map (fun v => v - (if m.sender_id == uid then intSize m else 0)))
    ∧ (∀ uid : String, mcOf (deleteOldMessage st m) uid
        = (mcOf st uid).map (fun v => v -
            (if m.sender_id == uid && pyTruthyNat m.file_size then 1 else 0))) := by
  by_cases ht : pyTruthyNat m.file_size = true
  · have hres : deleteOldMessage st m = deleteWithClampedAdjust st m := by
      unfold deleteOldMessage
      rw [if_pos ht]
    obtain ⟨h1, h2, h3, h4, h5, h6⟩ := deleteWithClampedAdjust_spec hw hm
    rw [hres]
    refine ⟨h1, h2, h3, h4, h5, ?_⟩
    intro uid
    rw [h6 uid]
    simp only [ht, Bool.and_true]
  · have ht' : pyTruthyNat m.file_size = false := by simpa using ht
    have hz : intSize m = 0 := intSize_of_not_truthy ht'
    obtain ⟨hL, hNu, hNm, hB⟩ := hw
    obtain ⟨hru, hrm, hrn⟩ := removeBackingFile_parts st m
    have hres : deleteOldMessage st m
        = { removeBackingFile st m with
            messages := (removeBackingFile st m).messages.filter (fun x => x.id != m.id) } := by
      unfold deleteOldMessage
      rw [if_neg (by rw [ht']; exact Bool.false_ne_true)]
    rw [hres]
    have hmsgs : ({ removeBackingFile st m with
        messages := (removeBackingFile st m).messages.filter (fun x => x.id != m.id) }
          : ServerState).messages
        = st.messages.filter (fun x => x.id != m.id) := by
      show (removeBackingFile st m).messages.filter _ = _
      rw [hrm]
    refine ⟨⟨?_, ?_, ?_, ?_⟩, hmsgs, hrn, ?_, ?_, ?_⟩
    · intro x hx
      rw [hmsgs]
      replace hx : x ∈ st.users := by rw [← hru]; exact hx
      obtain ⟨hs, hc⟩ := hL x hx
      constructor
      · rw [sentFileBytes_erase_id hNm hm, hz]
        split_ifs <;> omega
      · rw [sentCount_erase_id hNm hm]
        split_ifs <;> omega
    · show ((removeBackingFile st m).users.map User.user_id).Nodup
      rw [hru]
      exact hNu
    · rw [hmsgs]
      exact hNm.sublist ((List.filter_sublist _).map Message.id)
    · intro x hx
      rw [hmsgs] at hx
      show x.id < (removeBackingFile st m).next_id
      rw [hrn]
      exact hB x (List.mem_filter.mp hx).1
    · show (removeBackingFile st m).users.map User.user_id = _
      rw [hru]
    · intro uid
      unfold storageOf
      show ((removeBackingFile st m).users.find? _).map _ = _
      rw [hru, hz]
      cases st.users.find? (fun u => u.user_id == uid) <;> simp
    · intro uid
      unfold mcOf
      show ((removeBackingFile st m).users.find? _).map _ = _
      rw [hru, ht']
      simp only [Bool.and_false, Bool.false_eq_true, if_false]
      cases st.users.find? (fun u => u.user_id == uid) <;> simp

/-- Number of `uid`-sent stored messages with a truthy file size: exactly
the messages for which one cleanup pass decrements the message counter. -/
def sentTruthyFileCount (msgs : List Message) (uid : String) : Nat :=
  (msgs.filter (fun m => m.sender_id == uid && pyTruthyNat m.file_size)).length

theorem sentTruthyFileCount_cons (a : Message) (t : List Message) (uid : String) :
    sentTruthyFileCount (a :: t) uid
      = (if a.sender_id == uid && pyTruthyNat a.file_size then 1 else 0)
        + sentTruthyFileCount t uid := by
  unfold sentTruthyFileCount
  cases h : (a.sender_id == uid && pyTruthyNat a.file_size) <;>
    simp [List.filter_cons, h, Nat.add_comm]

/-- Characterisation of the whole cleanup fold over a snapshot `L` of
distinct stored messages. -/
theorem cleanup_fold_spec (L : List Message) (st : ServerState)
    (hw : WfState st) (hN : (L.map Message.id).Nodup) (hsub : ∀ m ∈ L, m ∈ st.messages) :
    WfState (L.foldl deleteOldMessage st)
    ∧ (L.foldl deleteOldMessage st).messages
        = st.messages.filter (fun x => decide (x.id ∉ L.map Message.id))
    ∧ (L.foldl deleteOldMessage st).next_id = st.next_id
    ∧ (∀ uid : String, storageOf (L.foldl deleteOldMessage st) uid
        = (storageOf st uid).map (fun v => v - sentFileBytes L uid))
    ∧ (∀ uid : String, mcOf (L.foldl deleteOldMessage st) uid
        = (mcOf st uid).map (fun v => v - (sentTruthyFileCount L uid : Int))) := by
  induction L generalizing st with
  | nil =>
    refine ⟨hw, ?_, rfl, ?_, ?_⟩
    · simp
    · intro uid
      show storageOf st uid = (storageOf st uid).map (fun v => v - sentFileBytes [] uid)
      cases storageOf st uid <;> simp [sentFileBytes]
    · intro uid
      show mcOf st uid = (mcOf st uid).map (fun v => v - (sentTruthyFileCount [] uid : Int))
      cases mcOf st uid <;> simp [sentTruthyFileCount]
  | cons m rest ih =>
    rw [List.map_cons, List.nodup_cons] at hN
    have hm : m ∈ st.messages := hsub m (List.mem_cons_self m rest)
    obtain ⟨hw1, hmsg1, hnext1, hkeys1, hsto1, hmc1⟩ := deleteOldMessage_spec hw hm
    have hsub1 : ∀ m' ∈ rest, m' ∈ (deleteOldMessage st m).messages := by
      intro m' hm'
      rw [hmsg1]
      refine List.mem_filter.mpr ⟨hsub m' (List.mem_cons_of_mem m hm'), ?_⟩
      have : m'.id ≠ m.id := fun hEq => hN.1 (hEq ▸ List.mem_map_of_mem Message.id hm')
      simpa using this
    obtain ⟨hwF, hmsgF, hnextF, hstoF, hmcF⟩ := ih (deleteOldMessage st m) hw1 hN.2 hsub1
    have hfold : (m :: rest).foldl deleteOldMessage st = rest.foldl deleteOldMessage (deleteOldMessage st m) := rfl
    rw [hfold]
    refine ⟨hwF, ?_, by rw [hnextF, hnext1], ?_, ?_⟩
    · rw [hmsgF, hmsg1, List.filter_filter]
      apply List.filter_congr
      intro x hx
      by_cases h1 : x.id = m.id <;> by_cases h2 : x.id ∈ rest.map Message.id <;>
        simp [h1, h2]
    · intro uid
      rw [hstoF uid, hsto1 uid, Option.map_map]
      cases storageOf st uid with
      | none => rfl
      | some v =>
        show some _ = some _
        simp only [Function.comp, sentFileBytes_cons]
        congr 1
        ring
    · intro uid
      rw [hmcF uid, hmc1 uid, Option.map_map]
      cases mcOf st uid with
      | none => rfl
      | some v =>
        show some _ = some _
        simp only [Function.comp, sentTruthyFileCount_cons]
        congr 1
        push_cast
        ring

/-- Specification of `cleanup_old_messages` on a well-formed state: exactly
the expired messages disappear, the storage ledger drops by the expired
file bytes, and the message counter drops only by the number of expired
truthy-file messages. -/
theorem cleanup_old_messages_spec (now : Int) (s : ServerState) (hw : WfState s) :
    WfState (cleanup_old_messages now s)
    ∧ (cleanup_old_messages now s).messages
        = s.messages.filter
            (fun m => !decide (m.sent_at < now - MESSAGE_AUTO_DELETE_HOURS * 3600))
    ∧ (cleanup_old_messages now s).next_id = s.next_id
    ∧ (∀ uid : String, storageOf (cleanup_old_messages now s) uid
        = (storageOf s uid).map (fun v => v - sentFileBytes (expiredMsgs now s) uid))
    ∧ (∀ uid : String, mcOf (cleanup_old_messages now s) uid
        = (mcOf s uid).map (fun v => v - (sentTruthyFileCount (expiredMsgs now s) uid : Int))) := by
  have hNm := hw.2.2.1
  have hN : ((expiredMsgs now s).map Message.id).Nodup :=
    hNm.sublist ((List.filter_sublist _).map Message.id)
  have hsub : ∀ m ∈ expiredMsgs now s, m ∈ s.messages :=
    fun m hm => (List.mem_filter.mp hm).1
  obtain ⟨h1, h2, h3, h4, h5⟩ := cleanup_fold_spec (expiredMsgs now s) s hw hN hsub
  refine ⟨h1, ?_, h3, h4, h5⟩
  show (List.foldl deleteOldMessage s (expiredMsgs now s)).messages = _
  rw [h2]
  apply List.filter_congr
  intro x hx
  by_cases hold : x.sent_at < now - MESSAGE_AUTO_DELETE_HOURS * 3600
  · have hxo : x ∈ expiredMsgs now s :=
      List.mem_filter.mpr ⟨hx, by simpa using hold⟩
    have : x.id ∈ (expiredMsgs now s).map Message.id := List.mem_map_of_mem Message.id hxo
    simp [this, hold]
  · have hnotin : x.id ∉ (expiredMsgs now s).map Message.id := by
      intro hin
      obtain ⟨y, hy, hyid⟩ := List.mem_map.mp hin
      have hys : y ∈ s.messages := hsub y hy
      have hxy : y = x := List.inj_on_of_nodup_map hNm hys hx hyid
      have : y.sent_at < now - MESSAGE_AUTO_DELETE_HOURS * 3600 := by
        have := (List.mem_filter.mp hy).2
        simpa using this
      rw [hxy] at this
      exact hold this
    simp [hnotin, hold]

/-- The global-cap loop preserves well-formedness. -/
theorem globalEvict_wf (total : Int) (L : List Message) : ∀ (deleted : Int) (st : ServerState),
    WfState st → (L.map Message.id).Nodup → (∀ m ∈ L, m ∈ st.messages) →
    WfState (globalEvict total L deleted st) := by
  induction L with
  | nil =>
    intro deleted st hw _ _
    exact hw
  | cons m rest ih =>
    intro deleted st hw hN hsub
    rw [List.map_cons, List.nodup_cons] at hN
    unfold globalEvict
    split
    · exact hw
    · obtain ⟨hw1, hmsg1, -, -, -, -⟩ :=
        deleteWithClampedAdjust_spec hw (hsub m (List.mem_cons_self m rest))
      apply ih _ _ hw1 hN.2
      intro m' hm'
      rw [hmsg1]
      refine List.mem_filter.mpr ⟨hsub m' (List.mem_cons_of_mem m hm'), ?_⟩
      have : m'.id ≠ m.id := fun hEq => hN.1 (hEq ▸ List.mem_map_of_mem Message.id hm')
      simpa using this

/-- The per-user loop preserves well-formedness. -/
theorem perUserEvict_wf (uid : String) (L : List Message) : ∀ (deleted : Int) (st : ServerState),
    WfState st → (L.map Message.id).Nodup → (∀ m ∈ L, m ∈ st.messages) →
    (∀ m ∈ L, (m.sender_id == uid) = true) →
    WfState (perUserEvict uid L deleted st) := by
  induction L with
  | nil =>
    intro deleted st hw _ _ _
    exact hw
  | cons m rest ih =>
    intro deleted st hw hN hsub hsend
    rw [List.map_cons, List.nodup_cons] at hN
    unfold perUserEvict
    split
    · exact hw
    · obtain ⟨hw1, hmsg1, -, -⟩ :=
        deleteWithUserAdjust_spec hw (hsub m (List.mem_cons_self m rest))
          (hsend m (List.mem_cons_self m rest))
      apply ih _ _ hw1 hN.2
      · intro m' hm'
        rw [hmsg1]
        refine List.mem_filter.mpr ⟨hsub m' (List.mem_cons_of_mem m hm'), ?_⟩
        have : m'.id ≠ m.id := fun hEq => hN.1 (hEq ▸ List.mem_map_of_mem Message.id hm')
        simpa using this
      · intro m' hm'
        exact hsend m' (List.mem_cons_of_mem m hm')

theorem perUserStep_wf (st : ServerState) (uid : String) (hw : WfState st) :
    WfState (perUserStep st uid) := by
  unfold perUserStep
  split
  · exact hw
  · split
    · have hperm := List.perm_insertionSort msgLeSent
        (st.messages.filter (fun m => m.sender_id == uid && m.file_size.isSome))
      apply perUserEvict_wf uid _ _ _ hw
      · exact ((hperm.map Message.id).nodup_iff).mpr
          (hw.2.2.1.sublist ((List.filter_sublist _).map Message.id))
      · intro m hm
        have hm2 : m ∈ st.messages.filter (fun m => m.sender_id == uid && m.file_size.isSome) :=
          hperm.mem_iff.mp hm
        exact (List.mem_filter.mp hm2).1
      · intro m hm
        have hm2 : m ∈ st.messages.filter (fun m => m.sender_id == uid && m.file_size.isSome) :=
          hperm.mem_iff.mp hm
        have hp := (List.mem_filter.mp hm2).2
        rw [Bool.and_eq_true] at hp
        exact hp.1
    · exact hw

theorem perUserFold_wf (uids : List String) : ∀ st : ServerState, WfState st →
    WfState (uids.foldl perUserStep st) := by
  induction uids with
  | nil =>
    intro st hw
    exact hw
  | cons a t ih =>
    intro st hw
    exact ih _ (perUserStep_wf st a hw)

/-- `enforce_storage_limits` preserves well-formedness. -/
theorem enforce_storage_limits_wf (s : ServerState) (hw : WfState s) :
    WfState (enforce_storage_limits s) := by
  have h1 : WfState (if MAX_TOTAL_STORAGE < get_total_storage_used s then
      globalEvict (get_total_storage_used s)
        (orderBySentAsc (s.messages.filter (fun m => m.file_size.isSome))) 0 s
    else s) := by
    split
    · have hperm := List.perm_insertionSort msgLeSent
        (s.messages.filter (fun m => m.file_size.isSome))
      apply globalEvict_wf _ _ _ _ hw
      · exact ((hperm.map Message.id).nodup_iff).mpr
          (hw.2.2.1.sublist ((List.filter_sublist _).map Message.id))
      · intro m hm
        have hm2 : m ∈ s.messages.filter (fun m => m.file_size.isSome) :=
          hperm.mem_iff.mp hm
        exact (List.mem_filter.mp hm2).1
    · exact hw
  exact perUserFold_wf _ _ h1

/-- Appending a fresh text message and bumping the sender's message counter
preserves well-formedness. -/
theorem wf_append_text {s : ServerState} {msg : Message} {key : String}
    (hw : WfState s) (hmsend : msg.sender_id = key) (hmsize : msg.file_size = none)
    (hmid : msg.id = s.next_id) :
    WfState { s with
      messages := s.messages ++ [msg],
      users := (updateFirst (fun u => u.user_id == key)
        (fun u => { u with message_count := u.message_count + 1 }) s.users),
      next_id := s.next_id + 1 } := by
  obtain ⟨hL, hNu, hNm, hB⟩ := hw
  have hz : intSize msg = 0 := by
    unfold intSize
    rw [hmsize]
    rfl
  refine ⟨?_, ?_, ?_, ?_⟩
  · intro x hx
    replace hx : x ∈ updateFirst (fun u => u.user_id == key)
        (fun u => { u with message_count := u.message_count + 1 }) s.users := hx
    rcases mem_updateFirst_key hNu hx with ⟨hxl, hxk⟩ | ⟨a, ha, hak, rfl⟩
    · have hne : (msg.sender_id == x.user_id) = false := by
        rw [hmsend]
        exact beq_comm_false hxk
      obtain ⟨hs, hc⟩ := hL x hxl
      constructor
      · show x.storage_used = sentFileBytes (s.messages ++ [msg]) x.user_id
        rw [sentFileBytes_append, hne]
        simp only [Bool.false_eq_true, if_false, add_zero]
        exact hs
      · show (sentCount (s.messages ++ [msg]) x.user_id : Int) ≤ x.message_count
        rw [sentCount_append, hne]
        simp only [Bool.false_eq_true, if_false, Nat.add_zero]
        exact hc
    · have heq : (msg.sender_id == a.user_id) = true := by
        rw [hmsend]
        exact beq_comm_true hak
      obtain ⟨hs, hc⟩ := hL a ha
      constructor
      · show a.storage_used = sentFileBytes (s.messages ++ [msg]) a.user_id
        rw [sentFileBytes_append, heq]
        simp only [if_true]
        rw [hz, add_zero]
        exact hs
      · show (sentCount (s.messages ++ [msg]) a.user_id : Int) ≤ a.message_count + 1
        rw [sentCount_append, heq]
        simp only [if_true]
        push_cast
        omega
  · show ((updateFirst _ _ s.users).map User.user_id).Nodup
    rw [updateFirst_map_eq (fun u => u.user_id == key)
      (fun u => { u with message_count := u.message_count + 1 }) User.user_id
      (fun u => rfl) s.users]
    exact hNu
  · show (((s.messages ++ [msg]).map Message.id)).Nodup
    rw [List.map_append]
    refine List.Nodup.append hNm (List.nodup_singleton _) ?_
    intro a ha hb
    obtain ⟨y, hy, rfl⟩ := List.mem_map.mp ha
    have hlt := hB y hy
    have hym : y.id = msg.id := by simpa using hb
    rw [hym, hmid] at hlt
    exact lt_irrefl _ hlt
  · intro x hx
    show x.id < s.next_id + 1
    rcases List.mem_append.mp hx with h1 | h1
    · have := hB x h1
      omega
    · have : x = msg := by simpa using h1
      rw [this, hmid]
      omega

/-- Appending a fresh file message, saving its file and bumping the
sender's two counters preserves well-formedness. -/
theorem wf_append_file {s : ServerState} {msg : Message} {key : String} {size fid : Nat}
    (hw : WfState s) (hmsend : msg.sender_id = key) (hmsize : msg.file_size = some size)
    (hmid : msg.id = s.next_id) :
    WfState { s with
      messages := s.messages ++ [msg],
      users := (updateFirst (fun u => u.user_id == key)
        (fun u => { u with
          storage_used := u.storage_used + (size : Int),
          message_count := u.message_count + 1 }) s.users),
      disk := fid :: s.disk,
      next_id := s.next_id + 1 } := by
  obtain ⟨hL, hNu, hNm, hB⟩ := hw
  have hz : intSize msg = (size : Int) := by
    unfold intSize
    rw [hmsize]
    rfl
  refine ⟨?_, ?_, ?_, ?_⟩
  · intro x hx
    replace hx : x ∈ updateFirst (fun u => u.user_id == key)
        (fun u => { u with
          storage_used := u.storage_used + (size : Int),
          message_count := u.message_count + 1 }) s.users := hx
    rcases mem_updateFirst_key hNu hx with ⟨hxl, hxk⟩ | ⟨a, ha, hak, rfl⟩
    · have hne : (msg.sender_id == x.user_id) = false := by
        rw [hmsend]
        exact beq_comm_false hxk
      obtain ⟨hs, hc⟩ := hL x hxl
      constructor
      · show x.storage_used = sentFileBytes (s.messages ++ [msg]) x.user_id
        rw [sentFileBytes_append, hne]
        simp only [Bool.false_eq_true, if_false, add_zero]
        exact hs
      · show (sentCount (s.messages ++ [msg]) x.user_id : Int) ≤ x.message_count
        rw [sentCount_append, hne]
        simp only [Bool.false_eq_true, if_false, Nat.add_zero]
        exact hc
    · have heq : (msg.sender_id == a.user_id) = true := by
        rw [hmsend]
        exact beq_comm_true hak
      obtain ⟨hs, hc⟩ := hL a ha
      constructor
      · show a.storage_used + (size : Int) = sentFileBytes (s.messages ++ [msg]) a.user_id
        rw [sentFileBytes_append, heq]
        simp only [if_true]
        rw [hz, hs]
      · show (sentCount (s.messages ++ [msg]) a.user_id : Int) ≤ a.message_count + 1
        rw [sentCount_append, heq]
        simp only [if_true]
        push_cast
        omega
  · show ((updateFirst _ _ s.users).map User.user_id).Nodup
    rw [updateFirst_map_eq (fun u => u.user_id == key)
      (fun u => { u with
        storage_used := u.storage_used + (size : Int),
        message_count := u.message_count + 1 }) User.user_id
      (fun u => rfl) s.users]
    exact hNu
  · show (((s.messages ++ [msg]).map Message.id)).Nodup
    rw [List.map_append]
    refine List.Nodup.append hNm (List.nodup_singleton _) ?_
    intro a ha hb
    obtain ⟨y, hy, rfl⟩ := List.mem_map.mp ha
    have hlt := hB y hy
    have hym : y.id = msg.id := by simpa using hb
    rw [hym, hmid] at hlt
    exact lt_irrefl _ hlt
  · intro x hx
    show x.id < s.next_id + 1
    rcases List.mem_append.mp hx with h1 | h1
    · have := hB x h1
      omega
    · have : x = msg := by simpa using h1
      rw [this, hmid]
      omega

theorem send_message_wf {uid rid text : String} {rto : Option Nat} {mid : Nat} {now : Int}
    {s s' : ServerState} {n : Nat}
    (h : send_message uid rid text rto mid now s = Except.ok (s', n))
    (hw : WfState s) : WfState s' := by
  unfold send_message at h
  split at h
  · exact absurd h (by simp)
  · split at h
    · exact absurd h (by simp)
    · split at h
      · exact absurd h (by simp)
      · split at h
        · exact absurd h (by simp)
        · rw [Except.ok.injEq, Prod.mk.injEq] at h
          obtain ⟨h1, -⟩ := h
          rw [← h1]
          exact wf_append_text hw rfl rfl rfl

theorem send_file_wf {uid rid : String} {fn : List Char} {size : Nat} {cap mime : String}
    {rto : Option Nat} {fid mid : Nat} {now : Int} {s s' : ServerState} {n : Nat}
    (h : send_file uid rid fn size cap mime rto fid mid now s = Except.ok (s', n))
    (hw : WfState s) : WfState s' := by
  unfold send_file at h
  split at h
  · exact absurd h (by simp)
  · split at h
    · exact absurd h (by simp)
    · split at h
      · exact absurd h (by simp)
      · split at h
        · exact absurd h (by simp)
        · split at h
          · exact absurd h (by simp)
          · split at h
            · exact absurd h (by simp)
            · split at h
              · rw [Except.ok.injEq, Prod.mk.injEq] at h
                obtain ⟨h1, -⟩ := h
                rw [← h1]
                exact wf_append_file hw rfl rfl rfl
              · exact absurd h (by simp)

theorem get_updates_wf (uid : String) (off : Option Int) (lim : Nat) (s : ServerState)
    (hw : WfState s) : WfState (get_updates uid off lim s).2 := by
  obtain ⟨hL, hNu, hNm, hB⟩ := hw
  refine ⟨?_, hNu, ?_, ?_⟩
  · intro x hx
    replace hx : x ∈ s.users := hx
    obtain ⟨hs, hc⟩ := hL x hx
    constructor
    · show x.storage_used = sentFileBytes (s.messages.map _) x.user_id
      rw [sentFileBytes_map _ _ _ (fun m => by split <;> rfl)
        (fun m => by split <;> rfl)]
      exact hs
    · show (sentCount (s.messages.map _) x.user_id : Int) ≤ x.message_count
      rw [sentCount_map _ _ _ (fun m => by split <;> rfl)]
      exact hc
  · show ((s.messages.map _).map Message.id).Nodup
    rw [List.map_map]
    have hcomp : (Message.id ∘ fun m =>
        if ((pollMessages uid off lim s).any fun x => x.id == m.id) && !m.is_delivered then
          { m with is_delivered := true, read_count := m.read_count + 1 }
        else m) = Message.id := by
      funext m
      show Message.id _ = m.id
      dsimp only
      split <;> rfl
    rw [hcomp]
    exact hNm
  · intro x hx
    replace hx : x ∈ s.messages.map _ := hx
    obtain ⟨y, hy, rfl⟩ := List.mem_map.mp hx
    show Message.id _ < s.next_id
    have : Message.id (if ((pollMessages uid off lim s).any fun x => x.id == y.id)
        && !y.is_delivered then
          { y with is_delivered := true, read_count := y.read_count + 1 }
        else y) = y.id := by
      split <;> rfl
    rw [this]
    exact hB y hy

/-- `download_file` either leaves the state untouched or only bumps the
read counter of the first message carrying the requested file id. -/
theorem download_file_state (uid : String) (fid : Nat) (s : ServerState) :
    (download_file uid fid s).1 = s
    ∨ (download_file uid fid s).1
      = { s with messages := (updateFirst (fun x => x.file_id == some fid)
          (fun x => { x with read_count := x.read_count + 1 }) s.messages) } := by
  unfold download_file
  split
  · exact Or.inl rfl
  · split
    · exact Or.inl rfl
    · split
      · exact Or.inl rfl
      · split
        · exact Or.inl rfl
        · split
          · exact Or.inr rfl
          · exact Or.inl rfl

theorem download_file_wf (uid : String) (fid : Nat) (s : ServerState)
    (hw : WfState s) : WfState (download_file uid fid s).1 := by
  rcases download_file_state uid fid s with h | h
  · rw [h]
    exact hw
  · rw [h]
    obtain ⟨hL, hNu, hNm, hB⟩ := hw
    refine ⟨?_, hNu, ?_, ?_⟩
    · intro x hx
      replace hx : x ∈ s.users := hx
      obtain ⟨hs, hc⟩ := hL x hx
      constructor
      · show x.storage_used = sentFileBytes (updateFirst _ _ s.messages) x.user_id
        rw [sentFileBytes_updateFirst s.messages (fun x => x.file_id == some fid)
          (fun x => { x with read_count := x.read_count + 1 }) x.user_id
          (fun m => rfl) (fun m => rfl)]
        exact hs
      · show (sentCount (updateFirst _ _ s.messages) x.user_id : Int) ≤ x.message_count
        rw [sentCount_updateFirst s.messages (fun x => x.file_id == some fid)
          (fun x => { x with read_count := x.read_count + 1 }) x.user_id
          (fun m => rfl)]
        exact hc
    · show ((updateFirst _ _ s.messages).map Message.id).Nodup
      rw [updateFirst_map_eq (fun x => x.file_id == some fid)
        (fun x => { x with read_count := x.read_count + 1 }) Message.id (fun m => rfl) s.messages]
      exact hNm
    · intro x hx
      replace hx : x ∈ updateFirst (fun x => x.file_id == some fid)
        (fun x => { x with read_count := x.read_count + 1 }) s.messages := hx
      show x.id < s.next_id
      rcases mem_updateFirst hx with h1 | ⟨a, ha, -, rfl⟩
      · exact hB x h1
      · exact hB a ha

/-! ## The transition system of claim C1: send, poll, download, expiry
sweep and cap enforcement -/

inductive Step : ServerState → ServerState → Prop where
  | sendText (uid rid text : String) (rto : Option Nat) (mid : Nat) (now : Int)
      (s s' : ServerState) (n : Nat) :
      send_message uid rid text rto mid now s = Except.ok (s', n) → Step s s'
  | sendFile (uid rid : String) (fn : List Char) (size : Nat) (cap mime : String)
      (rto : Option Nat) (fid mid : Nat) (now : Int) (s s' : ServerState) (n : Nat) :
      send_file uid rid fn size cap mime rto fid mid now s = Except.ok (s', n) → Step s s'
  | poll (uid : String) (off : Option Int) (lim : Nat) (s : ServerState) :
      Step s (get_updates uid off lim s).2
  | download (uid : String) (fid : Nat) (s : ServerState) :
      Step s (download_file uid fid s).1
  | cleanup (now : Int) (s : ServerState) :
      Step s (cleanup_old_messages now s)
  | enforce (s : ServerState) :
      Step s (enforce_storage_limits s)

/-- A freshly initialised database: no messages, zeroed ledgers, distinct
user ids (what `init_db` plus registrations produce). -/
def InitialState (s : ServerState) : Prop :=
  s.messages = []
  ∧ (∀ u ∈ s.users, u.storage_used = 0 ∧ u.message_count = 0)
  ∧ (s.users.map User.user_id).Nodup

instance (s : ServerState) : Decidable (InitialState s) := by
  unfold InitialState
  infer_instance

def Reachable (s0 s : ServerState) : Prop :=
  InitialState s0 ∧ Relation.ReflTransGen Step s0 s

theorem initial_wf {s : ServerState} (h : InitialState s) : WfState s := by
  obtain ⟨hm, hu, hn⟩ := h
  refine ⟨?_, hn, ?_, ?_⟩
  · intro u hu2
    obtain ⟨h1, h2⟩ := hu u hu2
    rw [hm]
    constructor
    · rw [h1]
      rfl
    · rw [h2]
      show ((0 : Nat) : Int) ≤ 0
      simp
  · rw [hm]
    exact List.nodup_nil
  · rw [hm]
    intro m hm2
    cases hm2

theorem step_wf {s s' : ServerState} (h : Step s s') (hw : WfState s) : WfState s' := by
  cases h with
  | sendText uid rid text rto mid now _ s2 n heq => exact send_message_wf heq hw
  | sendFile uid rid fn size cap mime rto fid mid now _ s2 n heq => exact send_file_wf heq hw
  | poll uid off lim _ => exact get_updates_wf uid off lim s hw
  | download uid fid _ => exact download_file_wf uid fid s hw
  | cleanup now _ => exact (cleanup_old_messages_spec now s hw).1
  | enforce _ => exact enforce_storage_limits_wf s hw

theorem reachable_wf {s0 s : ServerState} (h : Reachable s0 s) : WfState s := by
  obtain ⟨hi, hr⟩ := h
  induction hr with
  | refl => exact initial_wf hi
  | tail _ h2 ih => exact step_wf h2 ih

/-- C1 (amended): in every reachable state the storage counter is exactly
the sum of the account's stored file bytes and is never negative, and the
message counter is never negative and never undercounts the stored sent
messages — but it is only an upper bound, not an exact count, because the
expiry sweep does not decrement it for messages without a file. -/
theorem C1_ledger_invariant (s0 s : ServerState) (h : Reachable s0 s) :
    ∀ u ∈ s.users,
      u.storage_used = sentFileBytes s.messages u.user_id
      ∧ 0 ≤ u.storage_used
      ∧ (sentCount s.messages u.user_id : Int) ≤ u.message_count
      ∧ 0 ≤ u.message_count := by
  have hw := reachable_wf h
  intro u hu
  obtain ⟨hs, hc⟩ := hw.1 u hu
  refine ⟨hs, ?_, hc, ?_⟩
  · rw [hs]
    exact sentFileBytes_nonneg _ _
  · exact le_trans (Int.natCast_nonneg _) hc

def c1InitState : ServerState :=
  { users := [wUser "A", wUser "B"], messages := [], webhooks := [], disk := [], next_id := 1 }

theorem C1_witness :
    (wUser "A").storage_used = sentFileBytes c1InitState.messages (wUser "A").user_id
    ∧ 0 ≤ (wUser "A").storage_used := by
  have h := C1_ledger_invariant c1InitState c1InitState
    ⟨by decide, Relation.ReflTransGen.refl⟩ (wUser "A") (by decide)
  exact ⟨h.1, h.2.1⟩

/-- The state after account A sends one text message to B at time 0. -/
def c1bState : ServerState :=
  { users := [{ wUser "A" with message_count := 1 }, wUser "B"],
    messages := [wTextMsg 1 "A" "B" 0], webhooks := [], disk := [], next_id := 2 }

/-- The state after the expiry sweep runs two days later. -/
def c1cState : ServerState := cleanup_old_messages (2 * 86400) c1bState

/-- C1 as stated is FALSE: after a text message expires, the sweep deletes
the record but leaves the sender's message counter at 1 while zero sent
messages remain stored. -/
theorem C1_counterexample :
    Reachable c1InitState c1cState ∧ ¬ LedgerExact c1cState := by
  constructor
  · refine ⟨by decide, ?_⟩
    refine Relation.ReflTransGen.head
      (Step.sendText "A" "B" "hi" none 1 0 c1InitState c1bState 1 rfl) ?_
    exact Relation.ReflTransGen.single (Step.cleanup (2 * 86400) c1bState)
  · intro hL
    have h2 := hL { wUser "A" with message_count := 1 } (by decide)
    revert h2
    decide

/-- C3 (amended): after one expiry sweep no over-age message remains (the
survivors are exactly the non-expired messages); every sender's storage
counter drops by exactly the file bytes of its expired messages and stays
non-negative; but the message counter drops only by the number of expired
FILE-bearing (truthy-size) messages — an expired text message leaves it
untouched. -/
theorem C3_expiry_sweep (now : Int) (s : ServerState) (hw : WfState s) :
    (∀ m ∈ (cleanup_old_messages now s).messages,
        ¬ (m.sent_at < now - MESSAGE_AUTO_DELETE_HOURS * 3600))
    ∧ (cleanup_old_messages now s).messages
        = s.messages.filter
            (fun m => !decide (m.sent_at < now - MESSAGE_AUTO_DELETE_HOURS * 3600))
    ∧ (∀ uid : String, storageOf (cleanup_old_messages now s) uid
        = (storageOf s uid).map (fun v => v - sentFileBytes (expiredMsgs now s) uid))
    ∧ (∀ uid : String, mcOf (cleanup_old_messages now s) uid
        = (mcOf s uid).map (fun v => v - (sentTruthyFileCount (expiredMsgs now s) uid : Int)))
    ∧ (∀ u ∈ (cleanup_old_messages now s).users, 0 ≤ u.storage_used) := by
  obtain ⟨h1, h2, h3, h4, h5⟩ := cleanup_old_messages_spec now s hw
  refine ⟨?_, h2, h4, h5, ?_⟩
  · intro m hm
    rw [h2] at hm
    have := (List.mem_filter.mp hm).2
    simpa using this
  · intro u hu
    obtain ⟨hs, -⟩ := h1.1 u hu
    rw [hs]
    exact sentFileBytes_nonneg _ _

def c3State : ServerState :=
  { users := [{ wUser "A" with message_count := 2 }, wUser "B"],
    messages := [wTextMsg 1 "A" "B" 0, wTextMsg 2 "A" "B" 100],
    webhooks := [], disk := [], next_id := 3 }

theorem C3_witness :
    (cleanup_old_messages 200000 c3State).messages
      = c3State.messages.filter
          (fun m => !decide (m.sent_at < 200000 - MESSAGE_AUTO_DELETE_HOURS * 3600)) :=
  (C3_expiry_sweep 200000 c3State (by decide)).2.1

/-- Claim C3 exactly as stated: every deleted message decrements the
sender's message counter by one, i.e. after a sweep the counter has
dropped by the number of that sender's deleted messages. -/
def C3Stated : Prop :=
  ∀ (now : Int) (s : ServerState), WfState s →
    ∀ uid : String,
      mcOf (cleanup_old_messages now s) uid
        = (mcOf s uid).map
            (fun v => v
              - (((expiredMsgs now s).filter (fun m => m.sender_id == uid)).length : Int))

/-- C3 as stated is FALSE: two expired text messages leave the sender's
message counter at 2 although the claim demands it drop to 0. -/
theorem C3_counterexample : ¬ C3Stated := by
  intro h
  have h2 := h 200000 c3State (by decide) "A"
  revert h2
  decide

/-! ## Claim C2: the per-user cap enforcement bug -/

def c2FileMsg (i : Nat) (t : Int) : Message :=
  { id := i, message_id := i, message_type := "file", text_content := some "",
    file_id := some i, original_name := some "a.pdf", file_name := some "a.pdf",
    file_path := some i, file_size := some (30 * 1024 * 1024),
    mime_type := some "application/pdf",
    reply_to_message_id := none, reply_to_sender_id := none, reply_to_text := none,
    sender_id := "A", sender_username := "A", receiver_id := "B",
    sent_at := t, expires_at := t + 86400, is_delivered := false, read_count := 0,
    webhook_sent := false }

def c2UserA : User :=
  { user_id := "A", username := "A", storage_used := 180 * 1024 * 1024,
    message_count := 6, is_active := true }

/-- Account A holds six 30MiB files (180MiB used, ledger-consistent state,
reachable when concurrent sends race past the per-send quota pre-check). -/
def c2State : ServerState :=
  { users := [c2UserA, wUser "B"],
    messages := [c2FileMsg 1 10, c2FileMsg 2 20, c2FileMsg 3 30,
      c2FileMsg 4 40, c2FileMsg 5 50, c2FileMsg 6 60],
    webhooks := [], disk := [1, 2, 3, 4, 5, 6], next_id := 7 }

/-- C2 fails on the code: one full enforcement cycle leaves account A at
120MiB, still above the 100MiB cap, despite four more reclaimable 30MiB
file messages, because the loop's break condition `storage_used -
deleted_size <= cap` subtracts `deleted_size` from a counter that previous
iterations already decremented. -/
theorem C2_per_user_cap_bug :
    WfState c2State
    ∧ storageOf c2State "A" = some (180 * 1024 * 1024)
    ∧ storageOf (enforce_storage_limits c2State) "A" = some (120 * 1024 * 1024)
    ∧ MAX_USER_STORAGE < 120 * 1024 * 1024
    ∧ 0 < sentFileBytes (enforce_storage_limits c2State).messages "A" := by
  refine ⟨by decide, by decide, by decide, by decide, by decide⟩

/-! ## Frame lemmas: which operations can touch a stored message (C7, C8) -/

theorem deleteWithClampedAdjust_messages (st : ServerState) (m : Message) :
    (deleteWithClampedAdjust st m).messages = st.messages.filter (fun x => x.id != m.id) := by
  show (removeBackingFile st m).messages.filter _ = _
  rw [(removeBackingFile_parts st m).2.1]

theorem deleteWithUserAdjust_messages (uid : String) (st : ServerState) (m : Message) :
    (deleteWithUserAdjust uid st m).messages = st.messages.filter (fun x => x.id != m.id) := by
  show (removeBackingFile st m).messages.filter _ = _
  rw [(removeBackingFile_parts st m).2.1]

theorem deleteOldMessage_messages (st : ServerState) (m : Message) :
    (deleteOldMessage st m).messages = st.messages.filter (fun x => x.id != m.id) := by
  unfold deleteOldMessage
  split
  · exact deleteWithClampedAdjust_messages st m
  · show (removeBackingFile st m).messages.filter _ = _
    rw [(removeBackingFile_parts st m).2.1]

theorem foldl_deleteOldMessage_sub (L : List Message) : ∀ (st : ServerState) (x : Message),
    x ∈ (L.foldl deleteOldMessage st).messages → x ∈ st.messages := by
  induction L with
  | nil =>
    intro st x hx
    exact hx
  | cons m rest ih =>
    intro st x hx
    have h1 : x ∈ (deleteOldMessage st m).messages := ih (deleteOldMessage st m) x hx
    rw [deleteOldMessage_messages] at h1
    exact (List.mem_filter.mp h1).1

theorem cleanup_messages_sub {now : Int} {s : ServerState} {x : Message}
    (hx : x ∈ (cleanup_old_messages now s).messages) : x ∈ s.messages :=
  foldl_deleteOldMessage_sub (expiredMsgs now s) s x hx

theorem globalEvict_sub (total : Int) (L : List Message) : ∀ (deleted : Int)
    (st : ServerState) (x : Message),
    x ∈ (globalEvict total L deleted st).messages → x ∈ st.messages := by
  induction L with
  | nil =>
    intro deleted st x hx
    exact hx
  | cons m rest ih =>
    intro deleted st x hx
    unfold globalEvict at hx
    split at hx
    · exact hx
    · have h1 := ih _ _ x hx
      rw [deleteWithClampedAdjust_messages] at h1
      exact (List.mem_filter.mp h1).1

theorem perUserEvict_sub (uid : String) (L : List Message) : ∀ (deleted : Int)
    (st : ServerState) (x : Message),
    x ∈ (perUserEvict uid L deleted st).messages → x ∈ st.messages := by
  induction L with
  | nil =>
    intro deleted st x hx
    exact hx
  | cons m rest ih =>
    intro deleted st x hx
    unfold perUserEvict at hx
    split at hx
    · exact hx
    · have h1 := ih _ _ x hx
      rw [deleteWithUserAdjust_messages] at h1
      exact (List.mem_filter.mp h1).1

theorem perUserStep_sub {st : ServerState} {uid : String} {x : Message}
    (hx : x ∈ (perUserStep st uid).messages) : x ∈ st.messages := by
  unfold perUserStep at hx
  split at hx
  · exact hx
  · split at hx
    · exact perUserEvict_sub uid _ _ _ x hx
    · exact hx

theorem perUserFold_sub (uids : List String) : ∀ (st : ServerState) (x : Message),
    x ∈ (uids.foldl perUserStep st).messages → x ∈ st.messages := by
  induction uids with
  | nil =>
    intro st x hx
    exact hx
  | cons a t ih =>
    intro st x hx
    exact perUserStep_sub (ih (perUserStep st a) x hx)

theorem enforce_sub {s : ServerState} {x : Message}
    (hx : x ∈ (enforce_storage_limits s).messages) : x ∈ s.messages := by
  have h1 := perUserFold_sub _ _ x hx
  by_cases hc : MAX_TOTAL_STORAGE < get_total_storage_used s
  · rw [if_pos hc] at h1
    exact globalEvict_sub _ _ _ _ x h1
  · rw [if_neg hc] at h1
    exact h1

/-- All fields of a message except the three mutable flags
(`is_delivered`, `read_count`, `webhook_sent`). -/
def Message.core (m : Message) :=
  (m.id, m.message_id, m.message_type, m.text_content, m.file_id, m.original_name,
   m.file_name, m.file_path, m.file_size, m.mime_type, m.reply_to_message_id,
   m.reply_to_sender_id, m.reply_to_text, m.sender_id, m.sender_username,
   m.receiver_id, m.sent_at, m.expires_at)

/-- `send_webhook_notification` either leaves the state untouched (no
registration, or transport failure) or — whenever ANY HTTP response
arrives — stamps the registration's `last_triggered` and the message's
`webhook_sent`. -/
theorem send_webhook_notification_state (ruid : String) (mid : Nat) (now : Int)
    (hr : Option Nat) (s : ServerState) :
    (send_webhook_notification ruid mid now hr s).1 = s
    ∨ (send_webhook_notification ruid mid now hr s).1
      = { s with
          webhooks := (updateFirst (fun w => w.user_id == ruid && w.is_active)
            (fun w => { w with last_triggered := some now }) s.webhooks),
          messages := (updateFirst (fun m => m.message_id == mid)
            (fun m => { m with webhook_sent := true }) s.messages) } := by
  unfold send_webhook_notification
  split
  · exact Or.inl rfl
  · split
    · exact Or.inl rfl
    · exact Or.inr rfl

/-- C7 (amended): a stored message is mutated only in `is_delivered` and
`read_count` by the poll path, in `read_count` by the download path (the
part claim C7 misses), and in `webhook_sent` by the webhook path; the
retention engine only deletes whole records, and the send paths leave all
existing records untouched, adding one fresh record. -/
theorem C7_mutation_frame :
    (∀ (uid : String) (off : Option Int) (lim : Nat) (s : ServerState),
      ∀ m' ∈ (get_updates uid off lim s).2.messages,
        ∃ m ∈ s.messages, m'.core = m.core ∧ m'.webhook_sent = m.webhook_sent
          ∧ (m' = m ∨ (m.is_delivered = false ∧ m'.is_delivered = true
              ∧ m'.read_count = m.read_count + 1)))
    ∧ (∀ (uid : String) (fid : Nat) (s : ServerState),
      ∀ m' ∈ (download_file uid fid s).1.messages,
        ∃ m ∈ s.messages, m'.core = m.core ∧ m'.is_delivered = m.is_delivered
          ∧ m'.webhook_sent = m.webhook_sent
          ∧ (m' = m ∨ m'.read_count = m.read_count + 1))
    ∧ (∀ (ruid : String) (mid : Nat) (now : Int) (hr : Option Nat) (s : ServerState),
      ∀ m' ∈ (send_webhook_notification ruid mid now hr s).1.messages,
        ∃ m ∈ s.messages, m'.core = m.core ∧ m'.is_delivered = m.is_delivered
          ∧ m'.read_count = m.read_count ∧ (m' = m ∨ m'.webhook_sent = true))
    ∧ (∀ (now : Int) (s : ServerState),
      ∀ m' ∈ (cleanup_old_messages now s).messages, m' ∈ s.messages)
    ∧ (∀ s : ServerState, ∀ m' ∈ (enforce_storage_limits s).messages, m' ∈ s.messages)
    ∧ (∀ (uid rid text : String) (rto : Option Nat) (mid : Nat) (now : Int)
        (s s' : ServerState) (n : Nat),
        send_message uid rid text rto mid now s = Except.ok (s', n) →
        (∀ m ∈ s.messages, m ∈ s'.messages)
        ∧ (∀ m' ∈ s'.messages, m' ∈ s.messages ∨ m'.id = s.next_id))
    ∧ (∀ (uid rid : String) (fn : List Char) (size : Nat) (cap mime : String)
        (rto : Option Nat) (fid mid : Nat) (now : Int) (s s' : ServerState) (n : Nat),
        send_file uid rid fn size cap mime rto fid mid now s = Except.ok (s', n) →
        (∀ m ∈ s.messages, m ∈ s'.messages)
        ∧ (∀ m' ∈ s'.messages, m' ∈ s.messages ∨ m'.id = s.next_id)) := by
  refine ⟨?_, ?_, ?_, ?_, ?_, ?_, ?_⟩
  · intro uid off lim s m' hm'
    replace hm' : m' ∈ s.messages.map (fun m =>
        if ((pollMessages uid off lim s).any fun x => x.id == m.id) && !m.is_delivered then
          { m with is_delivered := true, read_count := m.read_count + 1 }
        else m) := hm'
    obtain ⟨y, hy, rfl⟩ := List.mem_map.mp hm'
    refine ⟨y, hy, ?_⟩
    by_cases hc : (((pollMessages uid off lim s).any fun x => x.id == y.id)
        && !y.is_delivered) = true
    · rw [if_pos hc]
      rw [Bool.and_eq_true] at hc
      refine ⟨rfl, rfl, Or.inr ⟨?_, rfl, rfl⟩⟩
      simpa using hc.2
    · rw [if_neg hc]
      exact ⟨rfl, rfl, Or.inl rfl⟩
  · intro uid fid s m' hm'
    rcases download_file_state uid fid s with h | h
    · rw [h] at hm'
      exact ⟨m', hm', rfl, rfl, rfl, Or.inl rfl⟩
    · rw [h] at hm'
      replace hm' : m' ∈ updateFirst (fun x => x.file_id == some fid)
          (fun x => { x with read_count := x.read_count + 1 }) s.messages := hm'
      rcases mem_updateFirst hm' with h1 | ⟨a, ha, -, rfl⟩
      · exact ⟨m', h1, rfl, rfl, rfl, Or.inl rfl⟩
      · exact ⟨a, ha, rfl, rfl, rfl, Or.inr rfl⟩
  · intro ruid mid now hr s m' hm'
    rcases send_webhook_notification_state ruid mid now hr s with h | h
    · rw [h] at hm'
      exact ⟨m', hm', rfl, rfl, rfl, Or.inl rfl⟩
    · rw [h] at hm'
      replace hm' : m' ∈ updateFirst (fun m => m.message_id == mid)
          (fun m => { m with webhook_sent := true }) s.messages := hm'
      rcases mem_updateFirst hm' with h1 | ⟨a, ha, -, rfl⟩
      · exact ⟨m', h1, rfl, rfl, rfl, Or.inl rfl⟩
      · exact ⟨a, ha, rfl, rfl, rfl, Or.inr rfl⟩
  · intro now s m' hm'
    exact cleanup_messages_sub hm'
  · intro s m' hm'
    exact enforce_sub hm'
  · intro uid rid text rto mid now s s' n h
    unfold send_message at h
    split at h
    · exact absurd h (by simp)
    · split at h
      · exact absurd h (by simp)
      · split at h
        · exact absurd h (by simp)
        · split at h
          · exact absurd h (by simp)
          · rw [Except.ok.injEq, Prod.mk.injEq] at h
            obtain ⟨h1, -⟩ := h
            rw [← h1]
            constructor
            · intro m hm
              exact List.mem_append_left _ hm
            · intro m' hm'
              replace hm' : m' ∈ s.messages ++ [_] := hm'
              rcases List.mem_append.mp hm' with h2 | h2
              · exact Or.inl h2
              · right
                have h3 := List.mem_singleton.mp h2
                rw [h3]
  · intro uid rid fn size cap mime rto fid mid now s s' n h
    unfold send_file at h
    split at h
    · exact absurd h (by simp)
    · split at h
      · exact absurd h (by simp)
      · split at h
        · exact absurd h (by simp)
        · split at h
          · exact absurd h (by simp)
          · split at h
            · exact absurd h (by simp)
            · split at h
              · exact absurd h (by simp)
              · split at h
                · rw [Except.ok.injEq, Prod.mk.injEq] at h
                  obtain ⟨h1, -⟩ := h
                  rw [← h1]
                  constructor
                  · intro m hm
                    exact List.mem_append_left _ hm
                  · intro m' hm'
                    replace hm' : m' ∈ s.messages ++ [_] := hm'
                    rcases List.mem_append.mp hm' with h2 | h2
                    · exact Or.inl h2
                    · right
                      have h3 := List.mem_singleton.mp h2
                      rw [h3]
                · exact absurd h (by simp)

/-- Claim C7's download part exactly as stated: downloading changes no
field of any stored message. -/
def C7StatedDownload : Prop :=
  ∀ (uid : String) (fid : Nat) (s : ServerState),
    ∀ m' ∈ (download_file uid fid s).1.messages, m' ∈ s.messages

def c7State : ServerState :=
  { users := [wUser "A", wUser "B"], messages := [c2FileMsg 5 0],
    webhooks := [], disk := [5], next_id := 6 }

/-- C7 as stated is FALSE: a successful download increments the stored
message's read counter. -/
theorem C7_counterexample : ¬ C7StatedDownload := by
  intro h
  have h2 := h "A" 5 c7State { c2FileMsg 5 0 with read_count := 1 } (by decide)
  revert h2
  decide

theorem C7_witness :
    ({ c2FileMsg 5 0 with read_count := 1 } : Message).core = (c2FileMsg 5 0).core := by
  obtain ⟨m, hm, hcore, -⟩ := C7_mutation_frame.2.1 "A" 5 c7State
    { c2FileMsg 5 0 with read_count := 1 } (by decide)
  have hm2 : m = c2FileMsg 5 0 := by
    have hm3 : m ∈ [c2FileMsg 5 0] := hm
    simpa using hm3
  rw [hm2] at hcore
  exact hcore

/-- C8 (amended): with no active registration the notifier is a no-op
returning failure (not an error); with a registration, a transport failure
mutates nothing; once ANY HTTP response arrives — success or not — the
registration's `last_triggered` and the message's `webhook_sent` are
marked, and the notifier reports success exactly for status 200. -/
theorem C8_webhook_marking :
    (∀ (ruid : String) (mid : Nat) (now : Int) (hr : Option Nat) (s : ServerState),
      s.webhooks.find? (fun w => w.user_id == ruid && w.is_active) = none →
      send_webhook_notification ruid mid now hr s = (s, false))
    ∧ (∀ (ruid : String) (mid : Nat) (now : Int) (s : ServerState) (w : UserWebhook),
      s.webhooks.find? (fun w => w.user_id == ruid && w.is_active) = some w →
      send_webhook_notification ruid mid now none s = (s, false))
    ∧ (∀ (ruid : String) (mid : Nat) (now : Int) (code : Nat) (s : ServerState)
        (w : UserWebhook) (msg : Message),
      s.webhooks.find? (fun w => w.user_id == ruid && w.is_active) = some w →
      s.messages.find? (fun m => m.message_id == mid) = some msg →
      (send_webhook_notification ruid mid now (some code) s).2 = (code == 200)
      ∧ ((send_webhook_notification ruid mid now (some code) s).1.webhooks.find?
          (fun w2 => w2.user_id == ruid && w2.is_active))
          = some { w with last_triggered := some now }
      ∧ ((send_webhook_notification ruid mid now (some code) s).1.messages.find?
          (fun m => m.message_id == mid))
          = some { msg with webhook_sent := true }
      ∧ (send_webhook_notification ruid mid now (some code) s).1.users = s.users
      ∧ (send_webhook_notification ruid mid now (some code) s).1.disk = s.disk) := by
  refine ⟨?_, ?_, ?_⟩
  · intro ruid mid now hr s h
    unfold send_webhook_notification
    rw [h]
  · intro ruid mid now s w h
    unfold send_webhook_notification
    rw [h]
  · intro ruid mid now code s w msg hwf hmf
    unfold send_webhook_notification
    rw [hwf]
    refine ⟨rfl, ?_, ?_, rfl, rfl⟩
    · show (updateFirst (fun w => w.user_id == ruid && w.is_active)
        (fun w => { w with last_triggered := some now }) s.webhooks).find?
          (fun w2 => w2.user_id == ruid && w2.is_active) = _
      rw [find?_updateFirst_pres (fun w => w.user_id == ruid && w.is_active)
        (fun w => { w with last_triggered := some now }) s.webhooks (fun a => rfl), hwf]
      rfl
    · show (updateFirst (fun m => m.message_id == mid)
        (fun m => { m with webhook_sent := true }) s.messages).find?
          (fun m => m.message_id == mid) = _
      rw [find?_updateFirst_pres (fun m => m.message_id == mid)
        (fun m => { m with webhook_sent := true }) s.messages (fun a => rfl), hmf]
      rfl

/-- Claim C8's marking clause exactly as stated: a non-success response is
"swallowed", i.e. when the notifier reports failure the state is
unchanged. -/
def C8Stated : Prop :=
  ∀ (ruid : String) (mid : Nat) (now : Int) (code : Nat) (s : ServerState),
    (send_webhook_notification ruid mid now (some code) s).2 = false →
    (send_webhook_notification ruid mid now (some code) s).1 = s

def c8Webhook : UserWebhook :=
  { user_id := "B", webhook_url := "http://h", secret_token := none,
    is_active := true, last_triggered := none }

def c8State : ServerState :=
  { users := [wUser "A", wUser "B"], messages := [wTextMsg 1 "A" "B" 0],
    webhooks := [c8Webhook], disk := [], next_id := 2 }

/-- C8 as stated is FALSE: an HTTP 500 response makes the notifier report
failure, yet it still marks `webhook_sent` and `last_triggered`. -/
theorem C8_counterexample : ¬ C8Stated := by
  intro h
  have h2 := h "B" 1 50 500 c8State (by decide)
  revert h2
  decide

theorem C8_witness :
    (send_webhook_notification "B" 1 50 (some 500) c8State).2 = (500 == 200)
    ∧ ((send_webhook_notification "B" 1 50 (some 500) c8State).1.messages.find?
        (fun m => m.message_id == 1))
        = some { wTextMsg 1 "A" "B" 0 with webhook_sent := true } := by
  have h := C8_webhook_marking.2.2 "B" 1 50 500 c8State c8Webhook (wTextMsg 1 "A" "B" 0)
    (by decide) (by decide)
  exact ⟨h.1, h.2.2.1⟩

theorem C9_witness : allowed_file "photo.JPG".data = true :=
  (C9_file_type_edge.1 "photo.JPG".data).mpr
    ⟨by decide, "jpg", by decide, by unfold caseInsensitiveEqChars; decide⟩
